import Mathlib

/-
Formal model of the nd2-utils multi-dimensional slicing / batched-extraction
engine and its serialization layer.

The definitions below are a shallow embedding of the Python sources:
  * src/nd2_utils/utils/dimensions.py   (DimensionParser)
  * src/nd2_utils/processors/export_logic.py (TiffExportLogic)
  * src/nd2_utils/processors/tiff_exporter.py (TiffExporter)

Modelling conventions:
  * A lazy labelled array (xarray.DataArray backed by dask) is a record of
    ordered dimension names, sizes, a dtype tag, and a total value function
    on integer coordinate vectors.  Element values are modelled as exact
    rationals; integer dtypes hold integral rationals.
  * `isel(...).compute()` with a scalar index drops the indexed dimension
    (xarray semantics); with a list index it keeps the dimension re-indexed
    by the list.  In the model `compute` returns exact values with the
    source dtype, so the defensive `astype(xarray.dtype)` guard in the
    source is an identity relabelling, which is encoded nonetheless.
  * Python dicts are association lists with unique keys; lookup is
    first-match (`alookup`).  A dict comprehension where a later binding
    overrides an earlier one is modelled by `dictIndexOf` (last match wins).
-/

namespace Nd2Utils

/-- numpy dtype tags relevant to the pipeline. -/
inductive Dtype where
  | uint8 | uint16 | uint32 | int8 | int16 | int32 | int64
  | float16 | float32 | float64
  deriving DecidableEq

/-- numpy `dtype.kind == 'f'`. -/
def Dtype.isFloatKind : Dtype → Bool
  | .float16 | .float32 | .float64 => true
  | _ => false

/-- Model of a lazy labelled array: ordered named axes, per-axis sizes
(aligned with `dims`), element dtype, and the underlying values as a total
function on coordinate vectors (one integer per axis, in `dims` order). -/
structure XArr where
  dims : List String
  sizes : List Nat
  dtype : Dtype
  data : List Int → ℚ

/-- Model of a materialized dense array (numpy.ndarray / computed
DataArray): named axes in order, shape, dtype and values. -/
structure NDArr where
  dims : List String
  shape : List Nat
  dtype : Dtype
  data : List Nat → ℚ

/-- First-match association-list lookup: Python dict access. -/
def alookup {β : Type} (k : String) : List (String × β) → Option β
  | [] => none
  | (k', v) :: rest => if k' = k then some v else alookup k rest

/-- `xarray.sizes[dim]`: the size registered for a named axis. -/
def sizeOf (a : XArr) (d : String) : Nat :=
  (alookup d (a.dims.zip a.sizes)).getD 0

/-- A value supplied in a slicer dict.  `vlist` is a Python list/tuple,
`vint` a bare integer, `vnone` the value `None`. -/
inductive SliceVal where
  | vlist (l : List Int)
  | vint (i : Int)
  | vnone
  deriving DecidableEq

/-- A value stored in `fixed_dims`: either a bare index, or (through the
fall-through branch for lists of length 0 or 1) the original list. -/
inductive FixedVal where
  | fint (i : Int)
  | flist (l : List Int)
  deriving DecidableEq

/-- A per-axis indexer handed to `isel`. -/
inductive IselVal where
  | iscalar (i : Int)
  | ilist (l : List Int)
  deriving DecidableEq

/-- Resolution of one native axis under an `isel` map: scalar-indexed axes
are dropped, list-indexed axes are kept re-indexed, untouched axes keep
their full size. -/
inductive DimSel where
  | fixed (i : Int)
  | fancy (l : List Int)
  | keep (n : Nat)
  deriving DecidableEq

/-- How `isel` treats the named axis `d` under the indexer map `sl`. -/
def dimSel (a : XArr) (sl : List (String × IselVal)) (d : String) : DimSel :=
  match alookup d sl with
  | some (.iscalar i) => .fixed i
  | some (.ilist l) => .fancy l
  | none => .keep (sizeOf a d)

/-- Expand a result coordinate vector of the selected array back into a
source coordinate vector, consuming one result coordinate per kept axis. -/
def expandIx : List DimSel → List Nat → List Int
  | [], _ => []
  | .fixed i :: rest, ix => i :: expandIx rest ix
  | .fancy _ :: _, [] => []
  | .fancy l :: rest, j :: ix => l.getD j 0 :: expandIx rest ix
  | .keep _ :: _, [] => []
  | .keep _ :: rest, j :: ix => (j : Int) :: expandIx rest ix

/-- `xarray.isel(sl, drop=False).compute()`: scalar-indexed axes are
dropped from the result, list-indexed axes keep the listed positions,
remaining axes are kept whole; values come from the source. -/
def iselCompute (a : XArr) (sl : List (String × IselVal)) : NDArr :=
  { dims := a.dims.filterMap fun d =>
      match dimSel a sl d with
      | .fixed _ => none
      | _ => some d
    shape := a.dims.filterMap fun d =>
      match dimSel a sl d with
      | .fixed _ => none
      | .fancy l => some l.length
      | .keep n => some n
    dtype := a.dtype
    data := fun ix => a.data (expandIx (a.dims.map (dimSel a sl)) ix) }

/-- The dtype-preservation guard after each `compute` call
(`if result.dtype != xarray.dtype: result = result.astype(xarray.dtype)`).
In the model `compute` already reports the source dtype, so the branch is a
dead identity, encoded for structural faithfulness. -/
def dtypeGuard (a : XArr) (r : NDArr) : NDArr :=
  if r.dtype ≠ a.dtype then { r with dtype := a.dtype } else r

/-- Inclusive integer range `list(range(start, end + 1))`; empty when
`stop < start`. -/
def intRangeIncl (start stop : Int) : List Int :=
  (List.range (stop + 1 - start).toNat).map fun k => start + Int.ofNat k

/-- `itertools.product` over a list of index lists: first list varies
slowest. -/
def itertoolsProduct {α : Type} : List (List α) → List (List α)
  | [] => [[]]
  | l :: ls => l.flatMap fun x => (itertoolsProduct ls).map (x :: ·)

/-- The Python dict `{orig: res for res, orig in enumerate(l)}` looked up
at `v`: the index of the LAST occurrence of `v` in `l` (later bindings
override earlier ones). -/
def dictIndexOf : List Int → Int → Option Nat
  | [], _ => none
  | x :: xs, v =>
    match dictIndexOf xs v with
    | some j => some (j + 1)
    | none => if x = v then some 0 else none

/-! ## DimensionParser.extract_data_with_progress: slicer classification

The first loop of `extract_data_with_progress` (dimensions.py lines
105-135) sorts each slicer entry into `dim_indices`, `batch_dims` and
`fixed_dims`. -/

/-- Accumulated classification state (`dim_indices`, `batch_dims`,
`fixed_dims`). -/
structure ParseState where
  dimIndices : List (String × List Int)
  batchDims : List String
  fixedDims : List (String × FixedVal)
  deriving DecidableEq

/-- What one slicer entry contributes to (`dim_indices`, `batch_dims`,
`fixed_dims`): the body of the classification loop.  A dimension not in the
source is skipped.  A 2-element list is a degenerate single value when
start == end, otherwise an inclusive range (batched only when it expands
to more than one index).  A longer list is an explicit batched index list.
`None` is skipped, and anything else (a bare value, or a list of length 0
or 1 through the final else branch) lands in `fixed_dims` as is. -/
def classifyEntry (a : XArr) (e : String × SliceVal) :
    List (String × List Int) × List String × List (String × FixedVal) :=
  if e.1 ∈ a.dims then
    match e.2 with
    | .vlist l =>
      if l.length == 2 then
        let start := l.getD 0 0
        let stop := l.getD 1 0
        if start == stop then ([], [], [(e.1, .fint start)])
        else
          let indices := intRangeIncl start stop
          if indices.length > 1 then ([(e.1, indices)], [e.1], [])
          else ([(e.1, indices)], [], [])
      else if l.length > 2 then ([(e.1, l)], [e.1], [])
      else ([], [], [(e.1, .flist l)])
    | .vnone => ([], [], [])
    | .vint i => ([], [], [(e.1, .fint i)])
  else ([], [], [])

/-- One iteration of the classification loop. -/
def parseStep (a : XArr) (st : ParseState) (e : String × SliceVal) : ParseState :=
  { dimIndices := st.dimIndices ++ (classifyEntry a e).1
    batchDims := st.batchDims ++ (classifyEntry a e).2.1
    fixedDims := st.fixedDims ++ (classifyEntry a e).2.2 }

/-- The full classification loop over the slicer dict. -/
def parseSlicers (a : XArr) (slicers : List (String × SliceVal)) : ParseState :=
  slicers.foldl (parseStep a) ⟨[], [], []⟩

/-! ## The extraction paths -/

/-- A `fixed_dims` value as an `isel` indexer. -/
def fixedToIsel : FixedVal → IselVal
  | .fint i => .iscalar i
  | .flist l => .ilist l

/-- Convert the `fixed_dims` map into `isel` indexers. -/
def fixedIsel (fd : List (String × FixedVal)) : List (String × IselVal) :=
  fd.map fun p => (p.1, fixedToIsel p.2)

/-- The no-batching fast path (dimensions.py lines 138-144): one direct
`isel(...).compute()` on the fixed map, followed by the dtype guard.  Note
that scalar indexing drops the fixed axes from the result. -/
def fastPath (a : XArr) (st : ParseState) : NDArr :=
  dtypeGuard a (iselCompute a (fixedIsel st.fixedDims))

/-- `[dim_indices[dim] for dim in batch_dims]`. -/
def batchLists (st : ParseState) : List (List Int) :=
  st.batchDims.map fun d => (alookup d st.dimIndices).getD []

/-- The final shape, walking the source's native axis order (dimensions.py
lines 162-171): batched-axis cardinality, 1 for fixed axes, native size
otherwise. -/
def finalShape (a : XArr) (st : ParseState) : List Nat :=
  a.dims.map fun d =>
    if d ∈ st.batchDims then ((alookup d st.dimIndices).getD []).length
    else if (alookup d st.fixedDims).isSome then 1
    else sizeOf a d

/-- `current_slicers` for one combination: the fixed map updated with this
combination's scalar index for every batch dimension (dict update: the
batch assignment wins, hence listed first for first-match lookup). -/
def comboSlicers (st : ParseState) (combo : List Int) : List (String × IselVal) :=
  (st.batchDims.zip combo).map (fun p => (p.1, IselVal.iscalar p.2)) ++ fixedIsel st.fixedDims

/-- The chunk materialized for one combination (dimensions.py lines
206-210), including the dtype guard. -/
def chunkOf (a : XArr) (st : ParseState) (combo : List Int) : NDArr :=
  dtypeGuard a (iselCompute a (comboSlicers st combo))

/-- The `array_indices` entry for the named axis (dimensions.py lines
212-223): position 0 for fixed axes (assigned last in the source, hence
checked first here), the combination index mapped through the axis's own
index list (`index_maps`) for batch axes, and the full slice (`none`)
otherwise. -/
def arrayIndexAt (st : ParseState) (combo : List Int) (d : String) : Option Nat :=
  if (alookup d st.fixedDims).isSome then some 0
  else if d ∈ st.batchDims then
    some ((dictIndexOf ((alookup d st.dimIndices).getD [])
      ((alookup d (st.batchDims.zip combo)).getD 0)).getD 0)
  else none

/-- `array_indices` in native axis order for one combination. -/
def consOf (a : XArr) (st : ParseState) (combo : List Int) : List (Option Nat) :=
  a.dims.map (arrayIndexAt st combo)

/-- Whether a result coordinate vector lies in the region assigned by
`result_array[tuple(array_indices)] = chunk`: every integer-constrained
position must match, free (full-slice) positions are unconstrained. -/
def matchesIx : List (Option Nat) → List Nat → Bool
  | [], [] => true
  | some v :: rest, j :: ix => j == v && matchesIx rest ix
  | none :: rest, _ :: ix => matchesIx rest ix
  | _, _ => false

/-- Project a result coordinate vector onto the chunk's coordinates: keep
the coordinates at the full-slice positions, in order. -/
def projIx : List (Option Nat) → List Nat → List Nat
  | some _ :: rest, _ :: ix => projIx rest ix
  | none :: rest, j :: ix => j :: projIx rest ix
  | _, _ => []

/-- The buffer update performed by one loop iteration:
`result_array[tuple(array_indices)] = chunk`. -/
def assignCombo (a : XArr) (st : ParseState) (f : List Nat → ℚ) (combo : List Int) :
    List Nat → ℚ :=
  fun ix =>
    if matchesIx (consOf a st combo) ix then (chunkOf a st combo).data (projIx (consOf a st combo) ix)
    else f ix

/-- The general batched path (dimensions.py lines 146-229): pre-allocate a
zero buffer of the final shape in native axis order and fill it one
combination at a time.  (tqdm / the progress wrapper only decorate the
iterator and do not change the data.) -/
def batchedPath (a : XArr) (st : ParseState) : NDArr :=
  { dims := a.dims
    shape := finalShape a st
    dtype := a.dtype
    data := (itertoolsProduct (batchLists st)).foldl (assignCombo a st) (fun _ => 0) }

/-- `DimensionParser.extract_data_with_progress`: classify the slicers,
then take the single-extraction fast path when no batch dimensions exist,
otherwise the batched path. -/
def extract_data_with_progress (a : XArr) (slicers : List (String × SliceVal)) : NDArr :=
  let st := parseSlicers a slicers
  if st.batchDims.isEmpty then fastPath a st else batchedPath a st

/-! ## DimensionParser.build_slicer_dict and validate_dimension_selection -/

/-- `DimensionParser.parse_dimensions`: axis name to size for every axis
the source reports (the `labels` field is always the empty list and is
dropped in the model). -/
def parse_dimensions (a : XArr) : List (String × Nat) :=
  a.dims.zip a.sizes

/-- One block of `build_slicer_dict` when a dimension model is supplied
(dimensions.py lines 250-272): a present axis gets the full inclusive
range `(0, size - 1)` when no selection is given, or the selection as is;
an absent axis contributes nothing even when a selection was supplied. -/
def slicerEntry (dims : List (String × Nat)) (axis : String) (sel : Option SliceVal) :
    List (String × SliceVal) :=
  match alookup axis dims with
  | none => []
  | some sz =>
    match sel with
    | none => [(axis, .vlist [0, (sz : Int) - 1])]
    | some v => [(axis, v)]

/-- `DimensionParser.build_slicer_dict`: without a dimension model the
given selections are passed through; with one, each of P, C, T, Z is
handled by `slicerEntry`, in that insertion order. -/
def build_slicer_dict (position channel time z : Option SliceVal) :
    Option (List (String × Nat)) → List (String × SliceVal)
  | none =>
    (match position with | none => [] | some v => [("P", v)]) ++
    (match channel with | none => [] | some v => [("C", v)]) ++
    (match time with | none => [] | some v => [("T", v)]) ++
    (match z with | none => [] | some v => [("Z", v)])
  | some dims =>
    slicerEntry dims "P" position ++ slicerEntry dims "C" channel ++
    slicerEntry dims "T" time ++ slicerEntry dims "Z" z

/-- One block of `validate_dimension_selection` (dimensions.py lines
50-80): a supplied single index for a present axis is kept when
`0 <= index <= size - 1` and silently dropped (with a warning log)
otherwise. -/
def checkAxis (dims : List (String × Nat)) (axis : String) (sel : Option Int) :
    List (String × Int) :=
  match sel, alookup axis dims with
  | some i, some sz => if 0 ≤ i ∧ i ≤ (sz : Int) - 1 then [(axis, i)] else []
  | _, _ => []

/-- `DimensionParser.validate_dimension_selection`: bounds-check each
supplied single index against the dimension model; out-of-range indices
are omitted from the returned slicer map and no exception is raised (the
function is total). -/
def validate_dimension_selection (dims : List (String × Nat))
    (position channel time z : Option Int) : List (String × Int) :=
  checkAxis dims "P" position ++ checkAxis dims "C" channel ++
  checkAxis dims "T" time ++ checkAxis dims "Z" z

/-! ## The dtype normalization policy

Floating values are modelled as exact rationals; `nanmax` is the exact
maximum over all in-bounds elements (NaN and infinity have no rational
representative and are outside the model). -/

/-- Truncation toward zero, the rounding performed by
`ndarray.astype` from a floating dtype to an integer dtype. -/
def ratTruncInt (q : ℚ) : Int :=
  if 0 ≤ q then ⌊q⌋ else ⌈q⌉

/-- `astype(np.uint16)` on one element: truncate toward zero and wrap
modulo 2^16. -/
def toUint16 (q : ℚ) : ℚ :=
  ((ratTruncInt q).emod 65536 : Int)

/-- All in-bounds coordinate vectors of a shape, in row-major order. -/
def allIdx (shape : List Nat) : List (List Nat) :=
  itertoolsProduct (shape.map List.range)

/-- `np.nanmax(data)`: the maximum element value (0 on an empty buffer,
where numpy would raise; never relied upon). -/
def arrMax (r : NDArr) : ℚ :=
  match (allIdx r.shape).map r.data with
  | [] => 0
  | x :: xs => xs.foldl max x

/-- The dtype conversion in `TiffExportLogic.export` (export_logic.py
lines 93-104): `uint8`, `uint16` and `float32` pass through; `float64` is
rescaled by its maximum to `uint16` (all-zero when the maximum is not
positive); any other non-float dtype is cast to `uint16`; any other float
dtype passes through unchanged at this step. -/
def normalizeDtypeExport (r : NDArr) : NDArr :=
  if r.dtype ∈ [Dtype.uint8, Dtype.uint16, Dtype.float32] then r
  else if r.dtype = .float64 then
    if arrMax r > 0 then
      { r with dtype := .uint16, data := fun ix => toUint16 (r.data ix / arrMax r * 65535) }
    else
      { r with dtype := .uint16, data := fun _ => 0 }
  else if ¬ r.dtype.isFloatKind then
    { r with dtype := .uint16, data := fun ix => toUint16 (r.data ix) }
  else r

/-- The dtype conversion in `TiffExportLogic._write_tiff_file`
(export_logic.py lines 136-146): `uint8`, `uint16` and `float32` pass
through; any remaining float dtype is rescaled by its maximum to `uint16`
(all-zero when the maximum is not positive); anything else is cast to
`uint16`. -/
def normalizeDtypeWrite (r : NDArr) : NDArr :=
  if r.dtype ∈ [Dtype.uint8, Dtype.uint16, Dtype.float32] then r
  else if r.dtype.isFloatKind then
    if arrMax r > 0 then
      { r with dtype := .uint16, data := fun ix => toUint16 (r.data ix / arrMax r * 65535) }
    else
      { r with dtype := .uint16, data := fun _ => 0 }
  else
    { r with dtype := .uint16, data := fun ix => toUint16 (r.data ix) }

/-! ## TiffExporter._write_5d_tiff: the serialization fallback

The container writes are modelled as a list of write events; whether the
primary OME-TIFF `imwrite` call succeeds is an oracle argument
(`primaryOk`), since the claim quantifies over "fails for any reason". -/

/-- A persisted container write: format tag, written shape, axis-order
string and the channel display names embedded in the metadata. -/
inductive WriteEvent where
  | omeWrite (shape : List Nat) (axes : String) (channelNames : List String)
  | imagejWrite (shape : List Nat) (axes : String)
  deriving DecidableEq

/-- The synthesized "position-channel" display names: `"{pos}-{chan}"` for
pos in [0, p), chan in [0, c), position varying slowest. -/
def channelNames (p c : Nat) : List String :=
  (List.range p).flatMap fun pos =>
    (List.range c).map fun chan => toString pos ++ "-" ++ toString chan

/-- `TiffExporter._write_5d_tiff` (tiff_exporter.py lines 240-327) on a
buffer of the given shape: reshape (t, p, c, y, x) to (t, p*c, y, x), try
the OME-TIFF write with channel metadata; if it fails, open the ImageJ
fallback writer and, when the reshaped buffer has 3 or more axes, build
the ImageJ metadata and return without calling write (the write call is
absent in the source); otherwise flatten to (-1, y, x) and write.  The
result is the list of writes actually performed.  A non-5-element shape is
unreachable through `_write_tiff_file`, which raises on it first. -/
def write_5d_tiff (shape : List Nat) (primaryOk : Bool) : List WriteEvent :=
  match shape with
  | [t, p, c, y, x] =>
    let newShape := [t, p * c, y, x]
    if primaryOk then
      [.omeWrite newShape "TCYX" (if p * c > 0 then channelNames p c else [])]
    else
      if newShape.length ≥ 3 then []
      else [.imagejWrite [t * (p * c), y, x] "YX"]
  | _ => []

/-! ## TiffExportLogic: the synchronous export pipeline (data path)

`nd2.imread` is replaced by handing the model the lazy source directly;
metadata extraction and the signal emissions do not affect the data.  The
container write itself (`nd2_processor.write_tiff`, referenced by
`_write_tiff_file` but defined nowhere in the repository) is the external
writer collaborator; the model stops at the point where the fully
normalized buffer is handed to it. -/

/-- `TiffExportLogic._write_tiff_file` data path (export_logic.py lines
126-162): make the buffer contiguous (identity in the model), apply the
write-step dtype conversion, then require a 5-axis shape — any other rank
raises `ValueError("Expected 5D data")`.  On success the normalized buffer
reaches the container writer. -/
def tiffExportLogic_write (data : NDArr) : Except String NDArr :=
  let d := normalizeDtypeWrite data
  match d.shape with
  | [_, _, _, _, _] => Except.ok d
  | _ => Except.error ("Expected 5D data")

/-- `TiffExportLogic.export` data path (export_logic.py lines 34-115):
parse the source dimensions, build the slicer dict with full-range
defaults, extract, normalize the dtype, and hand the buffer to
`_write_tiff_file`. -/
def export_model (a : XArr) (position channel time z : Option SliceVal) :
    Except String NDArr :=
  let dims := parse_dimensions a
  let slicers := build_slicer_dict position channel time z (some dims)
  let data := extract_data_with_progress a slicers
  let data := normalizeDtypeExport data
  tiffExportLogic_write data

/-! ## Cancellation: the control-flow trace of TiffExportLogic.export

The cooperative cancellation flag is owned by the caller and may be set at
any moment; the model represents "cancellation is requested after `n`
pipeline events have happened" and replays the checkpoint structure of
`export` (export_logic.py lines 30-124).  The extraction loop of
`extract_data_with_progress` contains no cancellation check, so its
per-combination materializations appear as one uninterrupted block. -/

/-- An observable pipeline event. -/
inductive Ev where
  | progress (n : Nat)
  | load
  | metadata
  | materialize (k : Nat)
  | normalize
  | write
  deriving DecidableEq

/-- How the pipeline ends: normally, or by the distinguished
`OperationCancelled` signal (re-raised after `signals.error.emit`). -/
inductive Outcome where
  | completed
  | cancelled
  deriving DecidableEq

/-- The cooperative flag consulted by `_check()`: set iff at least `cAt`
events have already happened (cancellation requested at that moment). -/
def chkCancelled (cAt : Option Nat) (evs : List Ev) : Bool :=
  match cAt with
  | none => false
  | some m => decide (evs.length ≥ m)

/-- The checkpoint/step sequence of `TiffExportLogic.export` for an export
whose extraction plan has `n` combinations: a `_check()` (raising
`OperationCancelled` when the flag is set) before loading, before
metadata, before the extraction call, after it, before dtype normalization
and before the write — but none between the `n` materializations, which
happen as one uninterrupted block. -/
def exportSteps (n : Nat) (cAt : Option Nat) : Except (List Ev) (List Ev) :=
  let e0 : List Ev := []
  if chkCancelled cAt e0 then .error e0 else
  let e1 := e0 ++ [Ev.progress 10]
  if chkCancelled cAt e1 then .error e1 else
  let e2 := e1 ++ [Ev.load, Ev.progress 20]
  if chkCancelled cAt e2 then .error e2 else
  let e3 := e2 ++ [Ev.metadata, Ev.progress 40]
  if chkCancelled cAt e3 then .error e3 else
  let e4 := e3 ++ (List.range n).map Ev.materialize
  if chkCancelled cAt e4 then .error e4 else
  let e5 := e4 ++ [Ev.progress 60]
  if chkCancelled cAt e5 then .error e5 else
  let e6 := e5 ++ [Ev.normalize, Ev.progress 80]
  if chkCancelled cAt e6 then .error e6 else
  .ok (e6 ++ [Ev.write, Ev.progress 90])

/-- The full run: on `OperationCancelled` the pipeline reports the
distinguished cancelled outcome (never a generic error); otherwise it
completes. -/
def exportRun (n : Nat) (cAt : Option Nat) : List Ev × Outcome :=
  match exportSteps n cAt with
  | Except.ok evs => (evs, .completed)
  | Except.error evs => (evs, .cancelled)

/-! ## Spec-side helper definitions used by the claim statements -/

/-- The shape the specification predicts for a selection (§8): walking the
source's native axis order, 1 for an axis fixed by a single index, the
inclusive range length for a ranged axis, and the native size for a
present but unselected axis. -/
def rangeLen : List Int → Nat
  | [s, e] => (e + 1 - s).toNat
  | _ => 0

/-- Claim-side shape formula for C4, written from the claim's words. -/
def selectionShape (a : XArr) (slicers : List (String × SliceVal)) : List Nat :=
  a.dims.map fun d =>
    match alookup d slicers with
    | some (.vint _) => 1
    | some (.vlist l) => rangeLen l
    | _ => sizeOf a d

/-- Re-insert the value `v` at every flagged position of a list (used to
relate the fast path's reduced-rank result to the batched layout: `v = 1`
for shapes, `v = 0` for coordinates). -/
def padAt : List Bool → Nat → List Nat → List Nat
  | [], _, _ => []
  | true :: fs, v, ix => v :: padAt fs v ix
  | false :: _, _, [] => []
  | false :: fs, v, j :: ix => j :: padAt fs v ix

/-- Which native axes are fixed in a classification state, in native
order. -/
def flagsOf (a : XArr) (st : ParseState) : List Bool :=
  a.dims.map fun d => (alookup d st.fixedDims).isSome

/-- Number of non-fixed native axes: the rank of the fast-path result. -/
def freeCount (a : XArr) (st : ParseState) : Nat :=
  ((flagsOf a st).filter (fun b => b = false)).length

/-! ## Concrete instances used by counterexamples and witnesses -/

/-- A 3-axis source (T=3, Y=2, X=2) with constant data. -/
def srcTYX : XArr :=
  ⟨["T", "Y", "X"], [3, 2, 2], .uint16, fun _ => 0⟩

/-- A 2-axis source (T=5, Y=2) whose value at (t, y) is 10*t + y. -/
def srcTY : XArr :=
  ⟨["T", "Y"], [5, 2], .uint16, fun ix => (ix.headD 0 : ℚ) * 10 + (ix.getD 1 0 : ℚ)⟩

/-- The §8 end-to-end source: axes T=4, C=2, Y=8, X=8; P and Z absent. -/
def srcTCYX : XArr :=
  ⟨["T", "C", "Y", "X"], [4, 2, 8, 8], .uint16, fun _ => 0⟩

/-- A 4-axis source with C=3 for the empty-range instance. -/
def srcT4C3 : XArr :=
  ⟨["T", "C", "Y", "X"], [4, 3, 8, 8], .uint16, fun _ => 0⟩

/-- A 1-axis float64 buffer holding [1, 2]. -/
def bufF64 : NDArr :=
  ⟨["X"], [2], .float64, fun ix => if ix = [1] then 2 else 1⟩

/-! ## Association-list lemmas -/

theorem alookup_append {β : Type} (k : String) (xs ys : List (String × β)) :
    alookup k (xs ++ ys) = (alookup k xs).or (alookup k ys) := by
  induction xs with
  | nil => simp [alookup]
  | cons p rest ih =>
    by_cases h : p.1 = k <;> simp [alookup, h, ih, Option.or]

theorem alookup_eq_none_iff {β : Type} (k : String) (xs : List (String × β)) :
    alookup k xs = none ↔ k ∉ xs.map Prod.fst := by
  induction xs with
  | nil => simp [alookup]
  | cons p rest ih =>
    by_cases h : p.1 = k
    · simp [alookup, h]
    · simp only [alookup, if_neg h, ih, List.map_cons, List.mem_cons]
      constructor
      · intro hn hc
        rcases hc with hc | hc
        · exact h hc.symm
        · exact hn hc
      · intro hn hc
        exact hn (Or.inr hc)

theorem alookup_mem {β : Type} {k : String} {v : β} {xs : List (String × β)}
    (h : alookup k xs = some v) : (k, v) ∈ xs := by
  induction xs with
  | nil => simp [alookup] at h
  | cons p rest ih =>
    by_cases hk : p.1 = k
    · simp [alookup, hk] at h
      subst hk; subst h
      exact List.mem_cons_self _ _
    · simp [alookup, hk] at h
      exact List.mem_cons_of_mem _ (ih h)

theorem mem_alookup {β : Type} {k : String} {v : β} {xs : List (String × β)}
    (hkeys : (xs.map Prod.fst).Nodup) (hm : (k, v) ∈ xs) : alookup k xs = some v := by
  induction xs with
  | nil => cases hm
  | cons p rest ih =>
    rcases List.mem_cons.mp hm with h | h
    · subst h; simp [alookup]
    · have hk : p.1 ≠ k := by
        intro he
        exact (List.nodup_cons.mp hkeys).1 (he ▸ List.mem_map_of_mem Prod.fst h)
      simp [alookup, hk]
      exact ih (List.nodup_cons.mp hkeys).2 h

theorem alookup_map_value {β γ : Type} (k : String) (f : β → γ) (xs : List (String × β)) :
    alookup k (xs.map fun p => (p.1, f p.2)) = (alookup k xs).map f := by
  induction xs with
  | nil => simp [alookup]
  | cons p rest ih =>
    by_cases h : p.1 = k <;> simp [alookup, h, ih]

theorem alookup_map_self {β : Type} {k : String} (f : String → β) {ds : List String}
    (h : k ∈ ds) : alookup k (ds.map fun d => (d, f d)) = some (f k) := by
  induction ds with
  | nil => cases h
  | cons d rest ih =>
    by_cases hd : d = k
    · subst hd; simp [alookup]
    · rcases List.mem_cons.mp h with h' | h'
      · exact (hd h'.symm).elim
      · simp [alookup, hd]
        exact ih h'

theorem zip_map_self {β : Type} (ds : List String) (f : String → β) :
    ds.zip (ds.map f) = ds.map fun d => (d, f d) := by
  induction ds with
  | nil => rfl
  | cons d rest ih => simp [ih]

theorem alookup_filterMap_self {β : Type} {k : String} (h : String → Option β)
    {ds : List String} (hm : k ∈ ds) {v : β} (hv : h k = some v) :
    alookup k (ds.filterMap fun d => (h d).map fun y => (d, y)) = some v := by
  induction ds with
  | nil => cases hm
  | cons d rest ih =>
    by_cases hd : d = k
    · subst hd
      simp [List.filterMap_cons, hv, alookup]
    · rcases List.mem_cons.mp hm with h' | h'
      · exact (hd h'.symm).elim
      · cases hdv : h d with
        | none => simp [List.filterMap_cons, hdv]; exact ih h'
        | some y =>
          simp [List.filterMap_cons, hdv, alookup, hd]
          exact ih h'

/-! ## flatMap block lemmas

Each slicer entry contributes a block keyed (if nonempty) by its own axis
name; under unique slicer keys, lookups into the concatenation of blocks
reduce to the entry's own block. -/

theorem keys_flatMap_sub {β : Type} {F : String × SliceVal → List (String × β)}
    (hF : ∀ e p, p ∈ F e → p.1 = e.1) {l : List (String × SliceVal)}
    {p : String × β} (hp : p ∈ l.flatMap F) : p.1 ∈ l.map Prod.fst := by
  rcases List.mem_flatMap.mp hp with ⟨e, he, hpe⟩
  rw [hF e p hpe]
  exact List.mem_map_of_mem Prod.fst he

theorem alookup_flatMap_of_not_mem {β : Type} {F : String × SliceVal → List (String × β)}
    (hF : ∀ e p, p ∈ F e → p.1 = e.1) {l : List (String × SliceVal)} {d : String}
    (hd : d ∉ l.map Prod.fst) : alookup d (l.flatMap F) = none := by
  rw [alookup_eq_none_iff]
  intro hmem
  rcases List.mem_map.mp hmem with ⟨p, hp, hpd⟩
  exact hd (hpd ▸ keys_flatMap_sub hF hp)

theorem alookup_flatMap_of_mem {β : Type} {F : String × SliceVal → List (String × β)}
    (hF : ∀ e p, p ∈ F e → p.1 = e.1) {l : List (String × SliceVal)}
    (hkeys : (l.map Prod.fst).Nodup) {d : String} {v : SliceVal}
    (hm : (d, v) ∈ l) : alookup d (l.flatMap F) = alookup d (F (d, v)) := by
  induction l with
  | nil => cases hm
  | cons e rest ih =>
    have hnd := List.nodup_cons.mp hkeys
    rcases List.mem_cons.mp hm with h | h
    · subst h
      have hrest : alookup d (rest.flatMap F) = none :=
        alookup_flatMap_of_not_mem hF hnd.1
      simp [alookup_append, hrest]
    · have hne : e.1 ≠ d := by
        intro he
        exact hnd.1 (he ▸ List.mem_map_of_mem Prod.fst h)
      have hblock : alookup d (F e) = none := by
        rw [alookup_eq_none_iff]
        intro hmem
        rcases List.mem_map.mp hmem with ⟨p, hp, hpd⟩
        exact hne ((hF e p hp).symm.trans hpd)
      simp [alookup_append, hblock, Option.or]
      exact ih hnd.2 h

theorem mem_flatMap_keyed {F : String × SliceVal → List String}
    (hF : ∀ e x, x ∈ F e → x = e.1) {l : List (String × SliceVal)} {d : String} :
    d ∈ l.flatMap F ↔ ∃ v, (d, v) ∈ l ∧ d ∈ F (d, v) := by
  constructor
  · intro h
    rcases List.mem_flatMap.mp h with ⟨e, he, hde⟩
    have : d = e.1 := hF e d hde
    subst this
    exact ⟨e.2, he, hde⟩
  · intro ⟨v, hm, hd⟩
    exact List.mem_flatMap.mpr ⟨(d, v), hm, hd⟩

theorem flatMap_keyed_nodup {F : String × SliceVal → List String}
    (hF : ∀ e x, x ∈ F e → x = e.1) (hlen : ∀ e, (F e).length ≤ 1)
    {l : List (String × SliceVal)} (hkeys : (l.map Prod.fst).Nodup) :
    (l.flatMap F).Nodup := by
  induction l with
  | nil => simp
  | cons e rest ih =>
    have hnd := List.nodup_cons.mp hkeys
    rw [List.flatMap_cons, List.nodup_append]
    refine ⟨?_, ih hnd.2, ?_⟩
    · match hFe : F e with
      | [] => simp
      | [x] => simp
      | x :: y :: rest' =>
        have := hlen e
        rw [hFe] at this
        simp at this
    · intro x hx hx'
      have hxe : x = e.1 := hF e x hx
      rcases List.mem_flatMap.mp hx' with ⟨e', he', hxe'⟩
      have hx'e : x = e'.1 := hF e' x hxe'
      subst hxe
      exact hnd.1 (hx'e ▸ List.mem_map_of_mem Prod.fst he')

/-! ## Classification-loop structure -/

theorem foldl_parseStep (a : XArr) (l : List (String × SliceVal)) :
    ∀ st : ParseState, List.foldl (parseStep a) st l =
      ⟨st.dimIndices ++ l.flatMap fun e => (classifyEntry a e).1,
       st.batchDims ++ l.flatMap fun e => (classifyEntry a e).2.1,
       st.fixedDims ++ l.flatMap fun e => (classifyEntry a e).2.2⟩ := by
  induction l with
  | nil => intro st; simp
  | cons e rest ih =>
    intro st
    rw [List.foldl_cons, ih]
    simp [parseStep]

theorem parseSlicers_eq (a : XArr) (l : List (String × SliceVal)) :
    parseSlicers a l =
      ⟨l.flatMap fun e => (classifyEntry a e).1,
       l.flatMap fun e => (classifyEntry a e).2.1,
       l.flatMap fun e => (classifyEntry a e).2.2⟩ := by
  have h := foldl_parseStep a l ⟨[], [], []⟩
  simpa [parseSlicers] using h

theorem classify_indices_keys (a : XArr) (e : String × SliceVal)
    (p : String × List Int) (hp : p ∈ (classifyEntry a e).1) : p.1 = e.1 := by
  rcases e with ⟨d, v⟩
  by_cases hd : d ∈ a.dims
  · cases v with
    | vlist l =>
      simp only [classifyEntry, if_pos hd] at hp
      split at hp <;> (try split at hp) <;> (try split at hp) <;> simp_all
    | vnone => simp [classifyEntry, hd] at hp
    | vint i => simp [classifyEntry, hd] at hp
  · simp [classifyEntry, hd] at hp

theorem classify_batch_keys (a : XArr) (e : String × SliceVal)
    (x : String) (hx : x ∈ (classifyEntry a e).2.1) : x = e.1 := by
  rcases e with ⟨d, v⟩
  by_cases hd : d ∈ a.dims
  · cases v with
    | vlist l =>
      simp only [classifyEntry, if_pos hd] at hx
      split at hx <;> (try split at hx) <;> (try split at hx) <;> simp_all
    | vnone => simp [classifyEntry, hd] at hx
    | vint i => simp [classifyEntry, hd] at hx
  · simp [classifyEntry, hd] at hx

theorem classify_fixed_keys (a : XArr) (e : String × SliceVal)
    (p : String × FixedVal) (hp : p ∈ (classifyEntry a e).2.2) : p.1 = e.1 := by
  rcases e with ⟨d, v⟩
  by_cases hd : d ∈ a.dims
  · cases v with
    | vlist l =>
      simp only [classifyEntry, if_pos hd] at hp
      split at hp <;> (try split at hp) <;> (try split at hp) <;> simp_all
    | vnone => simp [classifyEntry, hd] at hp
    | vint i => simp_all [classifyEntry, hd]
  · simp [classifyEntry, hd] at hp

theorem classify_batch_len (a : XArr) (e : String × SliceVal) :
    (classifyEntry a e).2.1.length ≤ 1 := by
  rcases e with ⟨d, v⟩
  by_cases hd : d ∈ a.dims
  · cases v with
    | vlist l =>
      simp only [classifyEntry, if_pos hd]
      split <;> (try split) <;> (try split) <;> simp_all
    | vnone => simp [classifyEntry, hd]
    | vint i => simp [classifyEntry, hd]
  · simp [classifyEntry, hd]

theorem classify_batch_mem_dims (a : XArr) (e : String × SliceVal)
    (x : String) (hx : x ∈ (classifyEntry a e).2.1) : e.1 ∈ a.dims := by
  rcases e with ⟨d, v⟩
  by_cases hd : d ∈ a.dims
  · exact hd
  · simp [classifyEntry, hd] at hx

/-! ## dictIndexOf, itertoolsProduct, intRangeIncl lemmas -/

theorem dictIndexOf_eq_none {l : List Int} {v : Int} (h : v ∉ l) :
    dictIndexOf l v = none := by
  induction l with
  | nil => rfl
  | cons x xs ih =>
    have hx : x ≠ v := fun he => h (he ▸ List.mem_cons_self _ _)
    have hxs : v ∉ xs := fun hm => h (List.mem_cons_of_mem _ hm)
    simp [dictIndexOf, ih hxs, hx]

theorem dictIndexOf_get {l : List Int} (hnd : l.Nodup) (k : Fin l.length) :
    dictIndexOf l (l.get k) = some k.val := by
  induction l with
  | nil => exact absurd k.isLt (by simp)
  | cons x xs ih =>
    rcases k with ⟨kv, hk⟩
    cases kv with
    | zero =>
      have hx : x ∉ xs := (List.nodup_cons.mp hnd).1
      simp [dictIndexOf, dictIndexOf_eq_none hx]
    | succ m =>
      have hm : m < xs.length := by simpa using hk
      have h2 := ih (List.nodup_cons.mp hnd).2 ⟨m, hm⟩
      simp only [List.get_eq_getElem] at h2 ⊢
      simp [dictIndexOf, h2]

theorem dictIndexOf_inj {l : List Int} (hnd : l.Nodup) {v w : Int}
    (hv : v ∈ l) (hw : w ∈ l) (hne : v ≠ w) :
    (dictIndexOf l v).getD 0 ≠ (dictIndexOf l w).getD 0 := by
  rcases List.mem_iff_get.mp hv with ⟨kv, rfl⟩
  rcases List.mem_iff_get.mp hw with ⟨kw, rfl⟩
  rw [dictIndexOf_get hnd kv, dictIndexOf_get hnd kw]
  intro h
  simp at h
  exact hne (by rw [Fin.ext h])

theorem mem_itertoolsProduct {α : Type} :
    ∀ {ls : List (List α)} {c : List α}, c ∈ itertoolsProduct ls →
      List.Forall₂ (fun x l => x ∈ l) c ls := by
  intro ls
  induction ls with
  | nil =>
    intro c hc
    simp [itertoolsProduct] at hc
    subst hc
    exact List.Forall₂.nil
  | cons l rest ih =>
    intro c hc
    simp only [itertoolsProduct, List.mem_flatMap, List.mem_map] at hc
    rcases hc with ⟨x, hx, c', hc', rfl⟩
    exact List.Forall₂.cons hx (ih hc')

theorem alookup_zip_get {β : Type} :
    ∀ {ds : List String} {cs : List β}, ds.Nodup →
      ∀ (k : Fin ds.length) (hk : k.val < cs.length),
        alookup (ds.get k) (ds.zip cs) = some (cs.get ⟨k.val, hk⟩) := by
  intro ds
  induction ds with
  | nil => intro cs _ k; exact absurd k.isLt (by simp)
  | cons d rest ih =>
    intro cs hnd k hk
    rcases k with ⟨kv, hkd⟩
    match cs with
    | [] => exact absurd hk (by simp)
    | c :: cs' =>
      cases kv with
      | zero => simp [alookup]
      | succ m =>
        have hm2 : m < rest.length := by simpa using hkd
        have hdm : d ≠ rest.get ⟨m, hm2⟩ := by
          intro he
          exact (List.nodup_cons.mp hnd).1 (he ▸ List.get_mem rest _ _)
        have hkc : m < cs'.length := by simpa using hk
        have hget : (d :: rest).get ⟨m + 1, hkd⟩ = rest.get ⟨m, hm2⟩ := rfl
        have hget2 : (c :: cs').get ⟨m + 1, hk⟩ = cs'.get ⟨m, hkc⟩ := rfl
        rw [List.zip_cons_cons, hget, hget2]
        show (if d = rest.get ⟨m, hm2⟩ then some c
          else alookup (rest.get ⟨m, hm2⟩) (rest.zip cs')) = some (cs'.get ⟨m, hkc⟩)
        rw [if_neg hdm]
        exact ih (List.nodup_cons.mp hnd).2 ⟨m, hm2⟩ hkc

theorem intRangeIncl_length (s e : Int) :
    (intRangeIncl s e).length = (e + 1 - s).toNat := by
  rw [intRangeIncl, List.length_map, List.length_range]

theorem intRangeIncl_nodup (s e : Int) : (intRangeIncl s e).Nodup := by
  rw [intRangeIncl]
  refine List.Nodup.map ?_ (List.nodup_range _)
  intro x y h
  dsimp at h
  omega

/-! ## Classification corollaries -/

theorem classify_batch_fixed (a : XArr) (e : String × SliceVal) {x : String}
    (hx : x ∈ (classifyEntry a e).2.1) : (classifyEntry a e).2.2 = [] := by
  rcases e with ⟨d, v⟩
  by_cases hd : d ∈ a.dims
  · cases v with
    | vlist l =>
      simp only [classifyEntry, if_pos hd] at hx ⊢
      split at hx <;> (try split at hx) <;> (try split at hx) <;> simp_all
    | vnone => simp [classifyEntry, hd] at hx
    | vint i => simp [classifyEntry, hd] at hx
  · simp [classifyEntry, hd] at hx

theorem classify_batch_indices (a : XArr) (e : String × SliceVal) {x : String}
    (hx : x ∈ (classifyEntry a e).2.1) :
    ∃ idxl, (classifyEntry a e).1 = [(e.1, idxl)] := by
  rcases e with ⟨d, v⟩
  by_cases hd : d ∈ a.dims
  · cases v with
    | vlist l =>
      simp only [classifyEntry, if_pos hd] at hx ⊢
      split at hx <;> (try split at hx) <;> (try split at hx) <;> simp_all
    | vnone => simp [classifyEntry, hd] at hx
    | vint i => simp [classifyEntry, hd] at hx
  · simp [classifyEntry, hd] at hx

theorem mem_keys_unique {l : List (String × SliceVal)} {d : String} {v v' : SliceVal}
    (hkeys : (l.map Prod.fst).Nodup) (h1 : (d, v) ∈ l) (h2 : (d, v') ∈ l) : v = v' := by
  have e1 := mem_alookup hkeys h1
  have e2 := mem_alookup hkeys h2
  rw [e1] at e2
  exact Option.some_inj.mp e2

/-- Under unique slicer keys, the three classification lookups reduce to
the axis's own entry's contribution. -/
theorem parse_lookup_eq (a : XArr) {l : List (String × SliceVal)}
    (hkeys : (l.map Prod.fst).Nodup) {d : String} {v : SliceVal} (hm : (d, v) ∈ l) :
    alookup d (parseSlicers a l).dimIndices = alookup d (classifyEntry a (d, v)).1 ∧
    (d ∈ (parseSlicers a l).batchDims ↔ d ∈ (classifyEntry a (d, v)).2.1) ∧
    alookup d (parseSlicers a l).fixedDims = alookup d (classifyEntry a (d, v)).2.2 := by
  rw [parseSlicers_eq]
  refine ⟨?_, ?_, ?_⟩
  · exact alookup_flatMap_of_mem (fun e p hp => classify_indices_keys a e p hp) hkeys hm
  · rw [mem_flatMap_keyed (fun e x hx => classify_batch_keys a e x hx)]
    constructor
    · intro ⟨v', hm', hb⟩
      rwa [mem_keys_unique hkeys hm' hm] at hb
    · intro hb
      exact ⟨v, hm, hb⟩
  · exact alookup_flatMap_of_mem (fun e p hp => classify_fixed_keys a e p hp) hkeys hm

/-- An axis never mentioned in the slicers is neither batched nor fixed
nor listed. -/
theorem parse_lookup_none (a : XArr) {l : List (String × SliceVal)} {d : String}
    (hd : d ∉ l.map Prod.fst) :
    alookup d (parseSlicers a l).dimIndices = none ∧
    d ∉ (parseSlicers a l).batchDims ∧
    alookup d (parseSlicers a l).fixedDims = none := by
  rw [parseSlicers_eq]
  refine ⟨?_, ?_, ?_⟩
  · exact alookup_flatMap_of_not_mem (fun e p hp => classify_indices_keys a e p hp) hd
  · rw [mem_flatMap_keyed (fun e x hx => classify_batch_keys a e x hx)]
    intro ⟨v', hm', _⟩
    exact hd (List.mem_map_of_mem Prod.fst hm')
  · exact alookup_flatMap_of_not_mem (fun e p hp => classify_fixed_keys a e p hp) hd

theorem batchDims_nodup (a : XArr) {l : List (String × SliceVal)}
    (hkeys : (l.map Prod.fst).Nodup) : (parseSlicers a l).batchDims.Nodup := by
  rw [parseSlicers_eq]
  exact flatMap_keyed_nodup (fun e x hx => classify_batch_keys a e x hx)
    (fun e => classify_batch_len a e) hkeys

theorem batchDims_sub_dims (a : XArr) {l : List (String × SliceVal)} {d : String}
    (hd : d ∈ (parseSlicers a l).batchDims) : d ∈ a.dims := by
  rw [parseSlicers_eq] at hd
  rcases List.mem_flatMap.mp hd with ⟨e, _, hde⟩
  have := classify_batch_keys a e d hde
  subst this
  exact classify_batch_mem_dims a e _ hde

/-- A batched axis has its index list registered, is not fixed, and the
index list is the one from its own entry. -/
theorem batch_structure (a : XArr) {l : List (String × SliceVal)}
    (hkeys : (l.map Prod.fst).Nodup) {d : String}
    (hd : d ∈ (parseSlicers a l).batchDims) :
    alookup d (parseSlicers a l).fixedDims = none ∧
    ∃ idxl, alookup d (parseSlicers a l).dimIndices = some idxl := by
  have hd' := hd
  rw [parseSlicers_eq] at hd'
  rw [mem_flatMap_keyed (fun e x hx => classify_batch_keys a e x hx)] at hd'
  rcases hd' with ⟨v, hm, hb⟩
  have h3 := parse_lookup_eq a hkeys hm
  constructor
  · rw [h3.2.2, classify_batch_fixed a (d, v) hb]
    rfl
  · rcases classify_batch_indices a (d, v) hb with ⟨idxl, hidx⟩
    refine ⟨idxl, ?_⟩
    rw [h3.1, hidx]
    simp [alookup]

/-! ## build_slicer_dict / validate_dimension_selection lemmas -/

theorem slicerEntry_self (dims : List (String × Nat)) (axis : String) (sel : Option SliceVal) :
    alookup axis (slicerEntry dims axis sel) =
      (alookup axis dims).map fun sz => sel.getD (.vlist [0, (sz : Int) - 1]) := by
  unfold slicerEntry
  cases alookup axis dims <;> cases sel <;> simp [alookup]

theorem slicerEntry_other (dims : List (String × Nat)) {axis axis' : String}
    (h : axis' ≠ axis) (sel : Option SliceVal) :
    alookup axis (slicerEntry dims axis' sel) = none := by
  unfold slicerEntry
  cases alookup axis' dims <;> cases sel <;> simp [alookup, h]

theorem checkAxis_self (dims : List (String × Nat)) (axis : String) (sel : Option Int) :
    alookup axis (checkAxis dims axis sel) =
      match sel, alookup axis dims with
      | some i, some sz => if 0 ≤ i ∧ i ≤ (sz : Int) - 1 then some i else none
      | _, _ => none := by
  unfold checkAxis
  cases sel <;> cases alookup axis dims <;> simp [alookup]
  split <;> simp [alookup]

theorem checkAxis_other (dims : List (String × Nat)) {axis axis' : String}
    (h : axis' ≠ axis) (sel : Option Int) :
    alookup axis (checkAxis dims axis' sel) = none := by
  unfold checkAxis
  cases sel <;> cases alookup axis' dims <;> simp [alookup, h]
  split <;> simp [alookup, h]

theorem validate_lookup_P (dims : List (String × Nat)) (p c t z : Option Int) :
    alookup "P" (validate_dimension_selection dims p c t z) =
      match p, alookup "P" dims with
      | some i, some sz => if 0 ≤ i ∧ i ≤ (sz : Int) - 1 then some i else none
      | _, _ => none := by
  unfold validate_dimension_selection
  rw [alookup_append, alookup_append, alookup_append]
  rw [checkAxis_other dims (by decide) c, checkAxis_other dims (by decide) t,
    checkAxis_other dims (by decide) z, checkAxis_self]
  simp [Option.or_none, Option.none_or]

theorem validate_lookup_C (dims : List (String × Nat)) (p c t z : Option Int) :
    alookup "C" (validate_dimension_selection dims p c t z) =
      match c, alookup "C" dims with
      | some i, some sz => if 0 ≤ i ∧ i ≤ (sz : Int) - 1 then some i else none
      | _, _ => none := by
  unfold validate_dimension_selection
  rw [alookup_append, alookup_append, alookup_append]
  rw [checkAxis_other dims (by decide) p, checkAxis_other dims (by decide) t,
    checkAxis_other dims (by decide) z, checkAxis_self]
  simp [Option.or_none, Option.none_or]

theorem validate_lookup_T (dims : List (String × Nat)) (p c t z : Option Int) :
    alookup "T" (validate_dimension_selection dims p c t z) =
      match t, alookup "T" dims with
      | some i, some sz => if 0 ≤ i ∧ i ≤ (sz : Int) - 1 then some i else none
      | _, _ => none := by
  unfold validate_dimension_selection
  rw [alookup_append, alookup_append, alookup_append]
  rw [checkAxis_other dims (by decide) p, checkAxis_other dims (by decide) c,
    checkAxis_other dims (by decide) z, checkAxis_self]
  simp [Option.or_none, Option.none_or]

theorem validate_lookup_Z (dims : List (String × Nat)) (p c t z : Option Int) :
    alookup "Z" (validate_dimension_selection dims p c t z) =
      match z, alookup "Z" dims with
      | some i, some sz => if 0 ≤ i ∧ i ≤ (sz : Int) - 1 then some i else none
      | _, _ => none := by
  unfold validate_dimension_selection
  rw [alookup_append, alookup_append, alookup_append]
  rw [checkAxis_other dims (by decide) p, checkAxis_other dims (by decide) c,
    checkAxis_other dims (by decide) t, checkAxis_self]
  simp [Option.or_none, Option.none_or]

theorem build_lookup_P (dims : List (String × Nat)) (p c t z : Option SliceVal) :
    alookup "P" (build_slicer_dict p c t z (some dims)) =
      (alookup "P" dims).map fun sz : Nat => p.getD (.vlist [0, (sz : Int) - 1]) := by
  simp only [build_slicer_dict]
  rw [alookup_append, alookup_append, alookup_append,
    slicerEntry_other dims (by decide) c, slicerEntry_other dims (by decide) t,
    slicerEntry_other dims (by decide) z, slicerEntry_self]
  simp [Option.or_none, Option.none_or]
  cases alookup "P" dims <;> rfl

theorem build_lookup_C (dims : List (String × Nat)) (p c t z : Option SliceVal) :
    alookup "C" (build_slicer_dict p c t z (some dims)) =
      (alookup "C" dims).map fun sz : Nat => c.getD (.vlist [0, (sz : Int) - 1]) := by
  simp only [build_slicer_dict]
  rw [alookup_append, alookup_append, alookup_append,
    slicerEntry_other dims (by decide) p, slicerEntry_other dims (by decide) t,
    slicerEntry_other dims (by decide) z, slicerEntry_self]
  simp [Option.or_none, Option.none_or]
  cases alookup "C" dims <;> rfl

theorem build_lookup_T (dims : List (String × Nat)) (p c t z : Option SliceVal) :
    alookup "T" (build_slicer_dict p c t z (some dims)) =
      (alookup "T" dims).map fun sz : Nat => t.getD (.vlist [0, (sz : Int) - 1]) := by
  simp only [build_slicer_dict]
  rw [alookup_append, alookup_append, alookup_append,
    slicerEntry_other dims (by decide) p, slicerEntry_other dims (by decide) c,
    slicerEntry_other dims (by decide) z, slicerEntry_self]
  simp [Option.or_none, Option.none_or]
  cases alookup "T" dims <;> rfl

theorem build_lookup_Z (dims : List (String × Nat)) (p c t z : Option SliceVal) :
    alookup "Z" (build_slicer_dict p c t z (some dims)) =
      (alookup "Z" dims).map fun sz : Nat => z.getD (.vlist [0, (sz : Int) - 1]) := by
  simp only [build_slicer_dict]
  rw [alookup_append, alookup_append, alookup_append,
    slicerEntry_other dims (by decide) p, slicerEntry_other dims (by decide) c,
    slicerEntry_other dims (by decide) t, slicerEntry_self]
  simp [Option.or_none, Option.none_or]
  cases alookup "Z" dims <;> rfl

/-! ## Claim C7 -/

/-- C7: the SelectionResolver (`build_slicer_dict` with a dimension model)
defaults every selectable axis (P, C, T, Z) that is present in the model
but given no explicit selection to the full inclusive range `(0, size-1)`,
so unselected present axes are fully included rather than dropped; and it
silently omits, without error, any selection supplied for an axis absent
from the model. -/
theorem claim_C7_resolver_defaults (dims : List (String × Nat))
    (p c t z : Option SliceVal) :
    (∀ sz, alookup "P" dims = some sz → p = none →
      alookup "P" (build_slicer_dict p c t z (some dims)) =
        some (.vlist [0, (sz : Int) - 1])) ∧
    (alookup "P" dims = none →
      alookup "P" (build_slicer_dict p c t z (some dims)) = none) ∧
    (∀ sz, alookup "C" dims = some sz → c = none →
      alookup "C" (build_slicer_dict p c t z (some dims)) =
        some (.vlist [0, (sz : Int) - 1])) ∧
    (alookup "C" dims = none →
      alookup "C" (build_slicer_dict p c t z (some dims)) = none) ∧
    (∀ sz, alookup "T" dims = some sz → t = none →
      alookup "T" (build_slicer_dict p c t z (some dims)) =
        some (.vlist [0, (sz : Int) - 1])) ∧
    (alookup "T" dims = none →
      alookup "T" (build_slicer_dict p c t z (some dims)) = none) ∧
    (∀ sz, alookup "Z" dims = some sz → z = none →
      alookup "Z" (build_slicer_dict p c t z (some dims)) =
        some (.vlist [0, (sz : Int) - 1])) ∧
    (alookup "Z" dims = none →
      alookup "Z" (build_slicer_dict p c t z (some dims)) = none) := by
  refine ⟨?_, ?_, ?_, ?_, ?_, ?_, ?_, ?_⟩
  · intro sz h h'; rw [build_lookup_P, h, h']; rfl
  · intro h; rw [build_lookup_P, h]; rfl
  · intro sz h h'; rw [build_lookup_C, h, h']; rfl
  · intro h; rw [build_lookup_C, h]; rfl
  · intro sz h h'; rw [build_lookup_T, h, h']; rfl
  · intro h; rw [build_lookup_T, h]; rfl
  · intro sz h h'; rw [build_lookup_Z, h, h']; rfl
  · intro h; rw [build_lookup_Z, h]; rfl

/-- Witness for C7: a model with T=5 and C=2 (P absent), a supplied
position selection and no time selection: the time axis is defaulted to
the full inclusive range (0, 4) and the position selection is silently
ignored. -/
theorem claim_C7_witness :
    alookup "T" (build_slicer_dict (some (.vint 3)) none none none
      (some [("T", 5), ("C", 2)])) = some (.vlist [0, 4]) ∧
    alookup "P" (build_slicer_dict (some (.vint 3)) none none none
      (some [("T", 5), ("C", 2)])) = none := by
  constructor
  · exact (claim_C7_resolver_defaults [("T", 5), ("C", 2)]
      (some (.vint 3)) none none none).2.2.2.2.1 5 (by decide) rfl
  · exact (claim_C7_resolver_defaults [("T", 5), ("C", 2)]
      (some (.vint 3)) none none none).2.1 (by decide)

/-! ## Claim C8 -/

/-- C8: single-index validation drops an out-of-range index (`index < 0`
or `index > size-1`) for a present axis with only a warning: the returned
slicer map omits that axis, no exception propagates (the function is
total), while in-range indices are kept; and range-based selections are
never bounds-checked at this layer — `build_slicer_dict` forwards a
supplied pair for a present axis unchanged, whatever its bounds. -/
theorem claim_C8_out_of_range_dropped (dims : List (String × Nat))
    (p c t z : Option Int) :
    (∀ i sz, p = some i → alookup "P" dims = some sz → (i < 0 ∨ (sz : Int) - 1 < i) →
      alookup "P" (validate_dimension_selection dims p c t z) = none) ∧
    (∀ i sz, p = some i → alookup "P" dims = some sz → 0 ≤ i → i ≤ (sz : Int) - 1 →
      alookup "P" (validate_dimension_selection dims p c t z) = some i) ∧
    (∀ i sz, c = some i → alookup "C" dims = some sz → (i < 0 ∨ (sz : Int) - 1 < i) →
      alookup "C" (validate_dimension_selection dims p c t z) = none) ∧
    (∀ i sz, c = some i → alookup "C" dims = some sz → 0 ≤ i → i ≤ (sz : Int) - 1 →
      alookup "C" (validate_dimension_selection dims p c t z) = some i) ∧
    (∀ i sz, t = some i → alookup "T" dims = some sz → (i < 0 ∨ (sz : Int) - 1 < i) →
      alookup "T" (validate_dimension_selection dims p c t z) = none) ∧
    (∀ i sz, t = some i → alookup "T" dims = some sz → 0 ≤ i → i ≤ (sz : Int) - 1 →
      alookup "T" (validate_dimension_selection dims p c t z) = some i) ∧
    (∀ i sz, z = some i → alookup "Z" dims = some sz → (i < 0 ∨ (sz : Int) - 1 < i) →
      alookup "Z" (validate_dimension_selection dims p c t z) = none) ∧
    (∀ i sz, z = some i → alookup "Z" dims = some sz → 0 ≤ i → i ≤ (sz : Int) - 1 →
      alookup "Z" (validate_dimension_selection dims p c t z) = some i) ∧
    (∀ (v : SliceVal) sz (q r s' : Option SliceVal), alookup "C" dims = some sz →
      alookup "C" (build_slicer_dict q (some v) r s' (some dims)) = some v) := by
  refine ⟨?_, ?_, ?_, ?_, ?_, ?_, ?_, ?_, ?_⟩
  · intro i sz hp hsz hout
    rw [validate_lookup_P, hp, hsz]
    show (if 0 ≤ i ∧ i ≤ (sz : Int) - 1 then some i else none) = none
    rw [if_neg (by omega)]
  · intro i sz hp hsz h1 h2
    rw [validate_lookup_P, hp, hsz]
    show (if 0 ≤ i ∧ i ≤ (sz : Int) - 1 then some i else none) = some i
    rw [if_pos ⟨h1, h2⟩]
  · intro i sz hp hsz hout
    rw [validate_lookup_C, hp, hsz]
    show (if 0 ≤ i ∧ i ≤ (sz : Int) - 1 then some i else none) = none
    rw [if_neg (by omega)]
  · intro i sz hp hsz h1 h2
    rw [validate_lookup_C, hp, hsz]
    show (if 0 ≤ i ∧ i ≤ (sz : Int) - 1 then some i else none) = some i
    rw [if_pos ⟨h1, h2⟩]
  · intro i sz hp hsz hout
    rw [validate_lookup_T, hp, hsz]
    show (if 0 ≤ i ∧ i ≤ (sz : Int) - 1 then some i else none) = none
    rw [if_neg (by omega)]
  · intro i sz hp hsz h1 h2
    rw [validate_lookup_T, hp, hsz]
    show (if 0 ≤ i ∧ i ≤ (sz : Int) - 1 then some i else none) = some i
    rw [if_pos ⟨h1, h2⟩]
  · intro i sz hp hsz hout
    rw [validate_lookup_Z, hp, hsz]
    show (if 0 ≤ i ∧ i ≤ (sz : Int) - 1 then some i else none) = none
    rw [if_neg (by omega)]
  · intro i sz hp hsz h1 h2
    rw [validate_lookup_Z, hp, hsz]
    show (if 0 ≤ i ∧ i ≤ (sz : Int) - 1 then some i else none) = some i
    rw [if_pos ⟨h1, h2⟩]
  · intro v sz q r s' hsz
    rw [build_lookup_C, hsz]
    rfl

/-- Witness for C8: with C=3 in the model, a supplied channel index 5 is
dropped from the validated slicer map, and a wildly out-of-bounds channel
range (7, 99) is forwarded untouched by the resolver. -/
theorem claim_C8_witness :
    alookup "C" (validate_dimension_selection [("C", 3)] none (some 5) none none) = none ∧
    alookup "C" (build_slicer_dict none (some (.vlist [7, 99])) none none
      (some [("C", 3)])) = some (.vlist [7, 99]) := by
  constructor
  · exact (claim_C8_out_of_range_dropped [("C", 3)] none (some 5) none none).2.2.1
      5 3 rfl (by decide) (by decide)
  · exact (claim_C8_out_of_range_dropped [("C", 3)] none (some 5) none none).2.2.2.2.2.2.2.2
      (.vlist [7, 99]) 3 none none none (by decide)

/-! ## Claim C2 -/

/-- C2 (code defect): for every structurally valid 5-axis buffer whose
primary metadata-capable (OME-TIFF) write fails, the fallback performs no
write at all: the reshaped buffer always has 4 axes, so the `>= 3`-axis
branch of the ImageJ fallback is taken, and that branch builds the ImageJ
metadata and returns without ever calling write (the flattened 2-axis
branch is unreachable).  Nothing is persisted, contradicting the claimed
3-axis / 2-axis fallback write. -/
theorem claim_C2_fallback_writes_nothing (t p c y x : Nat) :
    write_5d_tiff [t, p, c, y, x] false = [] := by
  rfl

/-! ## Claim C3 -/

/-- Full characterization of the cancellation behaviour of the export
pipeline: the trace grows stage by stage, the `n` materializations form
one uninterrupted block, and the run is cancelled exactly when the flag is
set no later than the last checkpoint. -/
theorem exportRun_spec (n cAt : Nat) :
    exportRun n (some cAt) =
      if cAt = 0 then ([], .cancelled)
      else if cAt ≤ 1 then ([Ev.progress 10], .cancelled)
      else if cAt ≤ 3 then ([Ev.progress 10, Ev.load, Ev.progress 20], .cancelled)
      else if cAt ≤ 5 then
        ([Ev.progress 10, Ev.load, Ev.progress 20, Ev.metadata, Ev.progress 40], .cancelled)
      else if cAt ≤ 5 + n then
        ([Ev.progress 10, Ev.load, Ev.progress 20, Ev.metadata, Ev.progress 40] ++
          (List.range n).map Ev.materialize, .cancelled)
      else if cAt ≤ 6 + n then
        ([Ev.progress 10, Ev.load, Ev.progress 20, Ev.metadata, Ev.progress 40] ++
          (List.range n).map Ev.materialize ++ [Ev.progress 60], .cancelled)
      else if cAt ≤ 8 + n then
        ([Ev.progress 10, Ev.load, Ev.progress 20, Ev.metadata, Ev.progress 40] ++
          (List.range n).map Ev.materialize ++
          [Ev.progress 60, Ev.normalize, Ev.progress 80], .cancelled)
      else
        ([Ev.progress 10, Ev.load, Ev.progress 20, Ev.metadata, Ev.progress 40] ++
          (List.range n).map Ev.materialize ++
          [Ev.progress 60, Ev.normalize, Ev.progress 80, Ev.write, Ev.progress 90],
          .completed) := by
  unfold exportRun exportSteps chkCancelled
  simp only [List.nil_append, List.length_nil, List.length_cons, List.length_append,
    List.length_map, List.length_range, List.append_assoc, List.cons_append,
    List.singleton_append, ge_iff_le, decide_eq_true_eq]
  split_ifs <;> first
    | rfl
    | (simp_all; done)
    | (exfalso; omega)

/-- C3 counterexample: with a 3-combination plan and cancellation
requested immediately after the first materialization (after 6 pipeline
events), the remaining two combinations are still materialized — the loop
contains no cancellation check — and the cancellation is only observed at
the next stage boundary. -/
theorem claim_C3_counterexample :
    (exportRun 3 (some 6)).1.count (Ev.materialize 1) = 1 ∧
    (exportRun 3 (some 6)).1.count (Ev.materialize 2) = 1 ∧
    (exportRun 3 (some 6)).2 = Outcome.cancelled := by
  decide

/-- C3 amended: the caller-supplied cancellation check is invoked between
pipeline stages but not before each per-combination materialize call.
Consequently extraction is all-or-nothing: once any combination is
materialized, every combination of the plan is; and cancellation requested
at or before the last checkpoint still terminates the pipeline with the
distinguished `OperationCancelled` outcome, never a generic error. -/
theorem claim_C3_amended (n cAt : Nat) :
    ((∃ k, Ev.materialize k ∈ (exportRun n (some cAt)).1) →
      ∀ k, k < n → Ev.materialize k ∈ (exportRun n (some cAt)).1) ∧
    ((exportRun n (some cAt)).2 = Outcome.cancelled ↔ cAt ≤ 8 + n) := by
  rw [exportRun_spec]
  split_ifs with h1 h2 h3 h4 h5 h6 h7 <;>
    refine ⟨?_, ?_⟩ <;>
    simp_all [List.mem_append, List.mem_map, List.mem_range] <;>
    omega

/-- Witness for the amended C3: applying the theorem at n = 3, cAt = 6
shows that the last combination is still materialized and the outcome is
the distinguished cancellation. -/
theorem claim_C3_witness :
    Ev.materialize 2 ∈ (exportRun 3 (some 6)).1 ∧
    (exportRun 3 (some 6)).2 = Outcome.cancelled := by
  refine ⟨(claim_C3_amended 3 6).1 ⟨0, by decide⟩ 2 (by decide), ?_⟩
  exact (claim_C3_amended 3 6).2.mpr (by decide)

/-! ## Claim C9 -/

/-- C9 counterexample: on the float64 buffer [1, 2] (maximum 2), the
pipeline's normalization produces trunc(1/2 * 65535) = 32767 at index 0,
not round(1/2 * 65535) = 32768 as the claim's formula states: `astype`
truncates toward zero, it does not round. -/
theorem claim_C9_counterexample :
    (normalizeDtypeWrite (normalizeDtypeExport bufF64)).data [0] ≠
      ((round (bufF64.data [0] / arrMax bufF64 * 65535) : ℤ) : ℚ) := by
  have harr : arrMax bufF64 = 2 := by
    show max (1 : ℚ) 2 = 2
    norm_num
  have hstep : (normalizeDtypeWrite (normalizeDtypeExport bufF64)).data [0]
      = toUint16 (bufF64.data [0] / arrMax bufF64 * 65535) := by
    have hpos : arrMax bufF64 > 0 := by rw [harr]; norm_num
    simp only [normalizeDtypeExport]
    rw [if_neg (by decide), if_pos (show bufF64.dtype = Dtype.float64 from rfl),
      if_pos hpos]
    simp only [normalizeDtypeWrite]
    rw [if_pos (by decide)]
  have hq : bufF64.data [0] / arrMax bufF64 * 65535 = 65535 / 2 := by
    rw [show bufF64.data [0] = 1 from rfl, harr]
    norm_num
  have hL : (normalizeDtypeWrite (normalizeDtypeExport bufF64)).data [0] = 32767 := by
    rw [hstep, hq, toUint16, ratTruncInt, if_pos (by norm_num)]
    norm_num
  have hR : round (bufF64.data [0] / arrMax bufF64 * 65535) = 32768 := by
    rw [hq, round_eq]
    norm_num
  rw [hL, hR]
  norm_num

/-- C9 amended: the composed dtype normalization (the export-step policy
followed by the write-step policy) leaves uint8, uint16 and float32
buffers unchanged; casts any other integer dtype to uint16 by truncation
modulo 2^16; and rescales any other floating dtype (float16 via the write
step, float64 via the export step) to uint16 as trunc(value / max * 65535)
— truncation toward zero, not rounding — when the buffer's maximum is
positive, or to an all-zero uint16 buffer of the same shape when the
maximum is ≤ 0. -/
theorem claim_C9_amended (r : NDArr) :
    (r.dtype ∈ [Dtype.uint8, Dtype.uint16, Dtype.float32] →
      normalizeDtypeWrite (normalizeDtypeExport r) = r) ∧
    (r.dtype ∈ [Dtype.uint32, Dtype.int8, Dtype.int16, Dtype.int32, Dtype.int64] →
      (normalizeDtypeWrite (normalizeDtypeExport r)).dtype = Dtype.uint16 ∧
      (normalizeDtypeWrite (normalizeDtypeExport r)).shape = r.shape ∧
      ∀ ix, (normalizeDtypeWrite (normalizeDtypeExport r)).data ix = toUint16 (r.data ix)) ∧
    ((r.dtype = Dtype.float16 ∨ r.dtype = Dtype.float64) →
      (normalizeDtypeWrite (normalizeDtypeExport r)).dtype = Dtype.uint16 ∧
      (normalizeDtypeWrite (normalizeDtypeExport r)).shape = r.shape ∧
      (0 < arrMax r → ∀ ix, (normalizeDtypeWrite (normalizeDtypeExport r)).data ix =
        toUint16 (r.data ix / arrMax r * 65535)) ∧
      (arrMax r ≤ 0 → ∀ ix, (normalizeDtypeWrite (normalizeDtypeExport r)).data ix = 0)) := by
  cases h : r.dtype <;>
    simp [normalizeDtypeExport, normalizeDtypeWrite, Dtype.isFloatKind, h, arrMax] <;>
    split_ifs <;>
    simp_all [normalizeDtypeWrite, arrMax]

/-- Witness for the amended C9: on the float64 buffer [1, 2] the result is
uint16 and the maximal element rescales to exactly 65535. -/
theorem claim_C9_witness :
    (normalizeDtypeWrite (normalizeDtypeExport bufF64)).dtype = Dtype.uint16 ∧
    (normalizeDtypeWrite (normalizeDtypeExport bufF64)).data [1] = 65535 := by
  have harr : arrMax bufF64 = 2 := by
    show max (1 : ℚ) 2 = 2
    norm_num
  have h := (claim_C9_amended bufF64).2.2 (Or.inr rfl)
  refine ⟨h.1, ?_⟩
  have h2 := h.2.2.1 (by rw [harr]; norm_num) [1]
  rw [h2, show bufF64.data [1] = 2 from rfl, harr]
  rw [show (2 : ℚ) / 2 * 65535 = 65535 from by norm_num]
  rw [toUint16, ratTruncInt, if_pos (by norm_num)]
  norm_num

/-! ## Structural lemmas about the extraction result -/

/-- The dtype guard is the identity on a freshly computed selection (the
model's `compute` already reports the source dtype). -/
theorem dtypeGuard_isel (a : XArr) (sl : List (String × IselVal)) :
    dtypeGuard a (iselCompute a sl) = iselCompute a sl := by
  simp [dtypeGuard, iselCompute]

theorem zip_filterMap_dimsel (f : String → DimSel) : ∀ ds : List String,
    (ds.filterMap fun d =>
      match f d with
      | .fixed _ => none
      | _ => some d).zip
    (ds.filterMap fun d =>
      match f d with
      | .fixed _ => none
      | .fancy l => some l.length
      | .keep n => some n)
    = ds.filterMap fun d =>
      match f d with
      | .fixed _ => none
      | .fancy l => some (d, l.length)
      | .keep n => some (d, n) := by
  intro ds
  induction ds with
  | nil => rfl
  | cons d rest ih => cases hf : f d <;> simp [List.filterMap_cons, hf, ih]

/-! ## Claim C10 -/

/-- C10: a two-element (start, end) selection with start > end for a
present axis expands to the empty inclusive index list, so the axis is
classified neither batched nor fixed and the extracted buffer silently
keeps that axis at its full native size — no error is raised (extraction
is total) and no empty axis is produced. -/
theorem claim_C10_empty_range_keeps_axis (a : XArr) (slicers : List (String × SliceVal))
    (hkeys : (slicers.map Prod.fst).Nodup)
    {d : String} {s e : Int} (hm : (d, .vlist [s, e]) ∈ slicers) (hse : e < s)
    {n : Nat} (hd : alookup d (a.dims.zip a.sizes) = some n) :
    d ∉ (parseSlicers a slicers).batchDims ∧
    alookup d (parseSlicers a slicers).fixedDims = none ∧
    alookup d ((extract_data_with_progress a slicers).dims.zip
      (extract_data_with_progress a slicers).shape) = some n := by
  have hdmem : d ∈ a.dims := (List.of_mem_zip (alookup_mem hd)).1
  have hsz : sizeOf a d = n := by rw [sizeOf, hd]; rfl
  have hsne : ¬ ((([s, e] : List Int).getD 0 0 == [s, e].getD 1 0) = true) := by
    simp
    omega
  have hlen : ¬ ((intRangeIncl ([s, e].getD 0 0) ([s, e].getD 1 0)).length > 1) := by
    simp [intRangeIncl_length]
    omega
  have hcl : classifyEntry a (d, SliceVal.vlist [s, e]) =
      ([(d, intRangeIncl s e)], [], []) := by
    simp only [classifyEntry, if_pos hdmem]
    rw [if_pos (by rfl), if_neg hsne, if_neg hlen]
    simp
  have h3 := parse_lookup_eq a hkeys hm
  have hbatch : d ∉ (parseSlicers a slicers).batchDims := by
    rw [h3.2.1, hcl]
    simp
  have hfixed : alookup d (parseSlicers a slicers).fixedDims = none := by
    rw [h3.2.2, hcl]
    rfl
  refine ⟨hbatch, hfixed, ?_⟩
  rw [extract_data_with_progress]
  by_cases hb : (parseSlicers a slicers).batchDims.isEmpty
  · rw [if_pos hb]
    rw [fastPath, dtypeGuard_isel]
    show alookup d ((iselCompute a (fixedIsel (parseSlicers a slicers).fixedDims)).dims.zip
      (iselCompute a (fixedIsel (parseSlicers a slicers).fixedDims)).shape) = some n
    have hds : dimSel a (fixedIsel (parseSlicers a slicers).fixedDims) d =
        .keep (sizeOf a d) := by
      rw [dimSel, fixedIsel, alookup_map_value, hfixed]
      rfl
    simp only [iselCompute]
    rw [zip_filterMap_dimsel (dimSel a (fixedIsel (parseSlicers a slicers).fixedDims))]
    have hfm : (fun d' =>
        match dimSel a (fixedIsel (parseSlicers a slicers).fixedDims) d' with
        | DimSel.fixed _ => none
        | DimSel.fancy l => some (d', l.length)
        | DimSel.keep m => some (d', m)) =
      fun d' => (match dimSel a (fixedIsel (parseSlicers a slicers).fixedDims) d' with
        | DimSel.fixed _ => (none : Option Nat)
        | DimSel.fancy l => some l.length
        | DimSel.keep m => some m).map fun y => (d', y) := by
      funext d'
      cases dimSel a (fixedIsel (parseSlicers a slicers).fixedDims) d' <;> rfl
    rw [hfm]
    rw [alookup_filterMap_self _ hdmem (by rw [hds]), hsz]
  · rw [if_neg hb]
    show alookup d (a.dims.zip (finalShape a (parseSlicers a slicers))) = some n
    rw [finalShape, zip_map_self, alookup_map_self _ hdmem]
    rw [if_neg hbatch, if_neg (by rw [hfixed]; simp), hsz]

/-- Witness for C10: on a T=4, C=3, Y=8, X=8 source with the channel range
(2, 1) (start > end) and a batched time range, the channel axis is not
batched and the extracted buffer keeps C at its native size 3. -/
theorem claim_C10_witness :
    "C" ∉ (parseSlicers srcT4C3
      [("C", SliceVal.vlist [2, 1]), ("T", SliceVal.vlist [0, 1])]).batchDims ∧
    alookup "C" ((extract_data_with_progress srcT4C3
      [("C", SliceVal.vlist [2, 1]), ("T", SliceVal.vlist [0, 1])]).dims.zip
      (extract_data_with_progress srcT4C3
        [("C", SliceVal.vlist [2, 1]), ("T", SliceVal.vlist [0, 1])]).shape) = some 3 := by
  have h := @claim_C10_empty_range_keeps_axis srcT4C3
    [("C", SliceVal.vlist [2, 1]), ("T", SliceVal.vlist [0, 1])]
    (by decide) "C" 2 1 (by decide) (by decide) 3 (by decide)
  exact ⟨h.1, h.2.2⟩

/-! ## Claim C4 -/

/-- C4 counterexample: for the all-fixed selection {T: 1} on a (T=3, Y=2,
X=2) source — a valid selection in which every requested axis is a single
index — the no-batching fast path drops the fixed T axis instead of
keeping it at size 1: the result shape is (2, 2), not the (1, 2, 2) the
claim's per-axis formula prescribes. -/
theorem claim_C4_counterexample :
    (extract_data_with_progress srcTYX [("T", SliceVal.vint 1)]).shape ≠
      selectionShape srcTYX [("T", SliceVal.vint 1)] := by
  decide

/-- C4 amended: for valid per-axis selections (each requested axis absent,
a single index, or a start-before-end range) that batch at least one axis
(so the general batched path runs), the extracted buffer's shape along
each source-native axis is 1 if the axis is fixed, the inclusive range
length if it is batched, and the source's native size if it is present but
unselected.  (In the no-batching fast path the fixed axes are dropped from
the result instead — see the counterexample.) -/
theorem claim_C4_amended (a : XArr) (slicers : List (String × SliceVal))
    (hkeys : (slicers.map Prod.fst).Nodup)
    (hwf : ∀ p ∈ slicers, (∃ i, p.2 = SliceVal.vint i) ∨
      (∃ s e, p.2 = SliceVal.vlist [s, e] ∧ s < e))
    (hnb : (parseSlicers a slicers).batchDims ≠ []) :
    (extract_data_with_progress a slicers).shape = selectionShape a slicers := by
  rw [extract_data_with_progress]
  rw [if_neg (by simpa using hnb)]
  show finalShape a (parseSlicers a slicers) = selectionShape a slicers
  rw [finalShape, selectionShape]
  apply List.map_congr_left
  intro d hdmem
  cases hlook : alookup d slicers with
  | none =>
    have hn := parse_lookup_none a (d := d) ((alookup_eq_none_iff d slicers).mp hlook)
    rw [if_neg hn.2.1, if_neg (by rw [hn.2.2]; simp)]
  | some v =>
    have hmem : (d, v) ∈ slicers := alookup_mem hlook
    have h3 := parse_lookup_eq a hkeys hmem
    rcases hwf (d, v) hmem with ⟨i, hv⟩ | ⟨s, e, hv, hse⟩
    · subst hv
      have hcl : classifyEntry a (d, SliceVal.vint i) = ([], [], [(d, .fint i)]) := by
        simp [classifyEntry, hdmem]
      rw [if_neg (by rw [h3.2.1, hcl]; simp),
        if_pos (by rw [h3.2.2, hcl]; simp [alookup])]
    · subst hv
      have hsne : ¬ ((([s, e] : List Int).getD 0 0 == [s, e].getD 1 0) = true) := by
        simp
        omega
      have hlen : (intRangeIncl ([s, e].getD 0 0) ([s, e].getD 1 0)).length > 1 := by
        simp [intRangeIncl_length]
        omega
      have hcl : classifyEntry a (d, SliceVal.vlist [s, e]) =
          ([(d, intRangeIncl s e)], [d], []) := by
        simp only [classifyEntry, if_pos hdmem]
        rw [if_pos (by rfl), if_neg hsne, if_pos hlen]
        simp
      rw [if_pos (by rw [h3.2.1, hcl]; simp)]
      rw [h3.1, hcl]
      show ((alookup d [(d, intRangeIncl s e)]).getD []).length = rangeLen [s, e]
      simp [alookup, intRangeIncl_length, rangeLen]

/-- Witness for the amended C4: the §8 selection {channel: (0,1), time:
(1,2)} on the (T=4, C=2, Y=8, X=8) source batches both axes and produces
exactly the claimed per-axis shape (2, 2, 8, 8). -/
theorem claim_C4_witness :
    (extract_data_with_progress srcTCYX
      [("C", SliceVal.vlist [0, 1]), ("T", SliceVal.vlist [1, 2])]).shape =
      selectionShape srcTCYX [("C", SliceVal.vlist [0, 1]), ("T", SliceVal.vlist [1, 2])] ∧
    selectionShape srcTCYX [("C", SliceVal.vlist [0, 1]), ("T", SliceVal.vlist [1, 2])] =
      [2, 2, 8, 8] := by
  refine ⟨claim_C4_amended srcTCYX _ (by decide) ?_ (by decide), by decide⟩
  intro p hp
  rcases List.mem_cons.mp hp with h | h
  · subst h
    exact Or.inr ⟨0, 1, rfl, by decide⟩
  · rcases List.mem_cons.mp h with h' | h'
    · subst h'
      exact Or.inr ⟨1, 2, rfl, by decide⟩
    · cases h'

/-! ## Padding lemmas relating the fast path to the batched layout -/

theorem padAt_shape (flag : String → Bool) (g : String → Nat) (h : String → Option Nat)
    (hcomp : ∀ d, (flag d = true → h d = none ∧ g d = 1) ∧
      (flag d = false → h d = some (g d))) :
    ∀ ds : List String, padAt (ds.map flag) 1 (ds.filterMap h) = ds.map g := by
  intro ds
  induction ds with
  | nil => rfl
  | cons d rest ih =>
    cases hf : flag d
    · have h2 := (hcomp d).2 hf
      simp [List.filterMap_cons, h2, hf, padAt, ih]
    · have h2 := (hcomp d).1 hf
      simp [List.filterMap_cons, h2.1, h2.2, hf, padAt, ih]

theorem filterMap_length_eq_filter (flag : String → Bool) (h : String → Option Nat)
    (hc : ∀ d, (flag d = true → h d = none) ∧ (flag d = false → (h d).isSome = true)) :
    ∀ ds : List String, (ds.filterMap h).length = (ds.filter fun d => !flag d).length := by
  intro ds
  induction ds with
  | nil => rfl
  | cons d rest ih =>
    cases hf : flag d
    · rcases Option.isSome_iff_exists.mp ((hc d).2 hf) with ⟨y, hy⟩
      simp [List.filterMap_cons, List.filter_cons, hf, hy, ih]
    · simp [List.filterMap_cons, List.filter_cons, hf, (hc d).1 hf, ih]

theorem matches_pad (flag : String → Bool) (f : String → Option Nat)
    (hf : ∀ d, f d = if flag d then some 0 else none) :
    ∀ (ds : List String) (ix : List Nat),
      ix.length = (ds.filter fun d => !flag d).length →
      matchesIx (ds.map f) (padAt (ds.map flag) 0 ix) = true := by
  intro ds
  induction ds with
  | nil => intro ix _; rfl
  | cons d rest ih =>
    intro ix hlen
    cases hfd : flag d
    · cases ix with
      | nil => simp [List.filter_cons, hfd] at hlen
      | cons j ix' =>
        simp only [List.filter_cons, hfd, Bool.not_false, if_pos, List.length_cons] at hlen
        simp only [List.map_cons, hf d, hfd, if_neg Bool.false_ne_true, padAt, matchesIx]
        exact ih ix' (by omega)
    · simp only [List.filter_cons, hfd, Bool.not_true] at hlen
      simp only [List.map_cons, hf d, hfd, if_pos rfl, padAt, matchesIx]
      simp only [beq_self_eq_true, Bool.true_and]
      exact ih ix (by simpa using hlen)

theorem proj_pad (flag : String → Bool) (f : String → Option Nat)
    (hf : ∀ d, f d = if flag d then some 0 else none) :
    ∀ (ds : List String) (ix : List Nat),
      ix.length = (ds.filter fun d => !flag d).length →
      projIx (ds.map f) (padAt (ds.map flag) 0 ix) = ix := by
  intro ds
  induction ds with
  | nil =>
    intro ix hlen
    simp at hlen
    simp [hlen, projIx]
  | cons d rest ih =>
    intro ix hlen
    cases hfd : flag d
    · cases ix with
      | nil => simp [List.filter_cons, hfd] at hlen
      | cons j ix' =>
        simp only [List.filter_cons, hfd, Bool.not_false, if_pos, List.length_cons] at hlen
        simp only [List.map_cons, hf d, hfd, if_neg Bool.false_ne_true, padAt, projIx]
        rw [ih ix' (by omega)]
    · simp only [List.filter_cons, hfd, Bool.not_true] at hlen
      simp only [List.map_cons, hf d, hfd, if_pos rfl, padAt, projIx]
      exact ih ix (by simpa using hlen)

/-! ## Claim C1 -/

/-- C1 counterexample: for the selection {T: 1} on a (T=3, Y=2, X=2)
source — which resolves to no batched axes — the fast path returns a
rank-2 result of shape (2, 2) (the fixed T axis is dropped by scalar
`isel`), while the general batched machinery on the same single
combination keeps T at size 1 with shape (1, 2, 2): the two paths are not
identical in shape. -/
theorem claim_C1_counterexample :
    (parseSlicers srcTYX [("T", SliceVal.vint 1)]).batchDims = [] ∧
    (extract_data_with_progress srcTYX [("T", SliceVal.vint 1)]).shape ≠
      (batchedPath srcTYX (parseSlicers srcTYX [("T", SliceVal.vint 1)])).shape := by
  decide

/-- C1 amended: for every selection that resolves to no batched axes
(scalar fixed values only), the fast path agrees with the general batched
machinery run on the same (single-combination) plan in dtype and in
element values, but not in shape: the batched layout keeps every fixed
axis at size 1 where the fast path drops it, so the batched shape is the
fast shape with 1 re-inserted at each fixed slot, and the batched value at
a coordinate with 0 re-inserted at each fixed slot equals the fast value. -/
theorem claim_C1_amended (a : XArr) (slicers : List (String × SliceVal))
    (hnb : (parseSlicers a slicers).batchDims = [])
    (hfx : ∀ p ∈ (parseSlicers a slicers).fixedDims, ∃ i, p.2 = FixedVal.fint i) :
    (batchedPath a (parseSlicers a slicers)).dtype
        = (extract_data_with_progress a slicers).dtype ∧
    (batchedPath a (parseSlicers a slicers)).shape
        = padAt (flagsOf a (parseSlicers a slicers)) 1
            (extract_data_with_progress a slicers).shape ∧
    ∀ ix, ix.length = (extract_data_with_progress a slicers).shape.length →
      (batchedPath a (parseSlicers a slicers)).data
          (padAt (flagsOf a (parseSlicers a slicers)) 0 ix)
        = (extract_data_with_progress a slicers).data ix := by
  have hfast : extract_data_with_progress a slicers
      = iselCompute a (fixedIsel (parseSlicers a slicers).fixedDims) := by
    rw [extract_data_with_progress, if_pos (by rw [hnb]; rfl), fastPath, dtypeGuard_isel]
  have hcomp : ∀ d,
      (((alookup d (parseSlicers a slicers).fixedDims).isSome = true →
        (match dimSel a (fixedIsel (parseSlicers a slicers).fixedDims) d with
          | DimSel.fixed _ => (none : Option Nat)
          | DimSel.fancy l => some l.length
          | DimSel.keep n => some n) = none ∧
        (if (alookup d (parseSlicers a slicers).fixedDims).isSome then 1
          else sizeOf a d) = 1) ∧
      ((alookup d (parseSlicers a slicers).fixedDims).isSome = false →
        (match dimSel a (fixedIsel (parseSlicers a slicers).fixedDims) d with
          | DimSel.fixed _ => (none : Option Nat)
          | DimSel.fancy l => some l.length
          | DimSel.keep n => some n) =
        some (if (alookup d (parseSlicers a slicers).fixedDims).isSome then 1
          else sizeOf a d))) := by
    intro d
    constructor
    · intro hs
      rcases Option.isSome_iff_exists.mp hs with ⟨v, hv⟩
      rcases hfx (d, v) (alookup_mem hv) with ⟨i, hi⟩
      have hi' : v = FixedVal.fint i := hi
      have hds : dimSel a (fixedIsel (parseSlicers a slicers).fixedDims) d =
          DimSel.fixed i := by
        rw [dimSel, fixedIsel, alookup_map_value, hv, hi']
        rfl
      rw [hds]
      exact ⟨rfl, by rw [if_pos hs]⟩
    · intro hs
      have hv : alookup d (parseSlicers a slicers).fixedDims = none :=
        Option.not_isSome_iff_eq_none.mp (by rw [hs]; exact Bool.false_ne_true)
      have hds : dimSel a (fixedIsel (parseSlicers a slicers).fixedDims) d =
          DimSel.keep (sizeOf a d) := by
        rw [dimSel, fixedIsel, alookup_map_value, hv]
        rfl
      rw [hds, if_neg (by rw [hs]; exact Bool.false_ne_true)]
  have hshape : (batchedPath a (parseSlicers a slicers)).shape
      = padAt (flagsOf a (parseSlicers a slicers)) 1
          (extract_data_with_progress a slicers).shape := by
    rw [hfast]
    show finalShape a (parseSlicers a slicers) = _
    have hmap : (a.dims.map fun d =>
        if d ∈ (parseSlicers a slicers).batchDims then
          ((alookup d (parseSlicers a slicers).dimIndices).getD []).length
        else if (alookup d (parseSlicers a slicers).fixedDims).isSome then 1
        else sizeOf a d)
      = a.dims.map fun d =>
          if (alookup d (parseSlicers a slicers).fixedDims).isSome then 1
          else sizeOf a d := by
      apply List.map_congr_left
      intro d _
      rw [hnb]
      exact if_neg (List.not_mem_nil d)
    rw [finalShape, hmap]
    exact (padAt_shape _ _ _ hcomp a.dims).symm
  refine ⟨by rw [hfast]; rfl, hshape, ?_⟩
  intro ix hlen
  have hflen : ix.length = (a.dims.filter fun d =>
      !(alookup d (parseSlicers a slicers).fixedDims).isSome).length := by
    rw [hfast] at hlen
    rw [hlen]
    exact filterMap_length_eq_filter _ _
      (fun d => ⟨fun hs => ((hcomp d).1 hs).1,
        fun hs => by rw [((hcomp d).2 hs)]; rfl⟩) a.dims
  have hconsf : ∀ d, arrayIndexAt (parseSlicers a slicers) [] d =
      if (alookup d (parseSlicers a slicers).fixedDims).isSome then some 0 else none := by
    intro d
    rw [arrayIndexAt]
    by_cases hs : (alookup d (parseSlicers a slicers).fixedDims).isSome
    · rw [if_pos hs, if_pos hs]
    · rw [if_neg hs, if_neg hs, if_neg (by rw [hnb]; exact List.not_mem_nil d)]
  have hcons : consOf a (parseSlicers a slicers) [] =
      a.dims.map fun d =>
        if (alookup d (parseSlicers a slicers).fixedDims).isSome then some 0 else none := by
    rw [consOf]
    exact List.map_congr_left fun d _ => hconsf d
  have hchunk : chunkOf a (parseSlicers a slicers) [] =
      iselCompute a (fixedIsel (parseSlicers a slicers).fixedDims) := by
    rw [chunkOf, comboSlicers, hnb]
    exact dtypeGuard_isel a _
  have hmat := matches_pad
    (fun d => (alookup d (parseSlicers a slicers).fixedDims).isSome)
    (fun d => if (alookup d (parseSlicers a slicers).fixedDims).isSome then some 0 else none)
    (fun _ => rfl) a.dims ix hflen
  have hproj := proj_pad
    (fun d => (alookup d (parseSlicers a slicers).fixedDims).isSome)
    (fun d => if (alookup d (parseSlicers a slicers).fixedDims).isSome then some 0 else none)
    (fun _ => rfl) a.dims ix hflen
  have hbl : batchLists (parseSlicers a slicers) = [] := by
    rw [batchLists, hnb]
    rfl
  simp only [flagsOf]
  show ((itertoolsProduct (batchLists (parseSlicers a slicers))).foldl
      (assignCombo a (parseSlicers a slicers)) (fun _ => 0))
      (padAt (a.dims.map fun d => (alookup d (parseSlicers a slicers).fixedDims).isSome)
        0 ix)
    = (extract_data_with_progress a slicers).data ix
  rw [hbl]
  show assignCombo a (parseSlicers a slicers) (fun _ => 0) []
      (padAt (a.dims.map fun d => (alookup d (parseSlicers a slicers).fixedDims).isSome)
        0 ix)
    = (extract_data_with_progress a slicers).data ix
  rw [assignCombo, hcons, if_pos hmat, hchunk, hfast, hproj]

/-- Witness for the amended C1: for the all-fixed selection {T: 1} on the
(T=3, Y=2, X=2) source, the batched layout's shape is the fast shape with
the size-1 T axis re-inserted, and the batched value at (0, 0, 1) equals
the fast value at (0, 1). -/
theorem claim_C1_witness :
    (batchedPath srcTYX (parseSlicers srcTYX [("T", SliceVal.vint 1)])).shape
      = padAt (flagsOf srcTYX (parseSlicers srcTYX [("T", SliceVal.vint 1)])) 1
          (extract_data_with_progress srcTYX [("T", SliceVal.vint 1)]).shape ∧
    (batchedPath srcTYX (parseSlicers srcTYX [("T", SliceVal.vint 1)])).data
        (padAt (flagsOf srcTYX (parseSlicers srcTYX [("T", SliceVal.vint 1)])) 0 [0, 1])
      = (extract_data_with_progress srcTYX [("T", SliceVal.vint 1)]).data [0, 1] := by
  have h := claim_C1_amended srcTYX [("T", SliceVal.vint 1)] (by decide) ?_
  · exact ⟨h.2.1, h.2.2 [0, 1] (by decide)⟩
  · intro p hp
    rw [show (parseSlicers srcTYX [("T", SliceVal.vint 1)]).fixedDims =
      [("T", FixedVal.fint 1)] from by decide] at hp
    simp at hp
    exact ⟨1, by rw [hp]⟩

/-! ## Claim C6 -/

/-- C6 counterexample: on the §8 source (T=4, C=2, Y=8, X=8; P and Z
absent) with selection {time: (1, 2), channel: absent}, the export does
not complete: the extracted buffer is 4-axis, and `_write_tiff_file`
requires exactly 5 axes, so the pipeline raises the "Expected 5D data"
error instead of producing an output. -/
theorem claim_C6_counterexample :
    export_model srcTCYX none none (some (SliceVal.vlist [1, 2])) none =
      Except.error ("Expected 5D data") := by
  rfl

/-- C6 amended: the extraction itself behaves as §8 describes — the
selection {time: (1, 2), channel: absent} on the (T=4, C=2, Y=8, X=8)
source defaults the present channel axis to its full range, batches T and
C, and produces a buffer of native shape (2, 2, 8, 8) — but the export
then fails with the 5-axis shape error ("Expected 5D data") rather than
completing, so no position-channel display names are ever synthesized (the
serializer is never reached). -/
theorem claim_C6_amended :
    (extract_data_with_progress srcTCYX (build_slicer_dict none none
      (some (SliceVal.vlist [1, 2])) none (some (parse_dimensions srcTCYX)))).shape
      = [2, 2, 8, 8] ∧
    (parseSlicers srcTCYX (build_slicer_dict none none
      (some (SliceVal.vlist [1, 2])) none (some (parse_dimensions srcTCYX)))).batchDims
      = ["C", "T"] ∧
    export_model srcTCYX none none (some (SliceVal.vlist [1, 2])) none =
      Except.error ("Expected 5D data") := by
  refine ⟨by decide, by decide, rfl⟩

/-! ## Claim C5 -/

theorem matches_agree (f f' : String → Option Nat) :
    ∀ (ds : List String) (ix : List Nat),
      matchesIx (ds.map f) ix = true → matchesIx (ds.map f') ix = true →
      ∀ d ∈ ds, ∀ v v', f d = some v → f' d = some v' → v = v' := by
  intro ds
  induction ds with
  | nil =>
    intro ix _ _ d hd
    cases hd
  | cons d0 rest ih =>
    intro ix hm hm' d hd v v' hv hv'
    cases ix with
    | nil =>
      rw [List.map_cons] at hm
      cases hf0 : f d0 <;> rw [hf0] at hm <;> simp [matchesIx] at hm
    | cons j ix' =>
      rw [List.map_cons] at hm hm'
      have hrec : matchesIx (rest.map f) ix' = true := by
        cases hf0 : f d0 <;> rw [hf0] at hm <;> simp [matchesIx] at hm <;> tauto
      have hrec' : matchesIx (rest.map f') ix' = true := by
        cases hf0' : f' d0 <;> rw [hf0'] at hm' <;> simp [matchesIx] at hm' <;> tauto
      rcases List.mem_cons.mp hd with rfl | hd'
      · rw [hv] at hm
        rw [hv'] at hm'
        simp [matchesIx] at hm hm'
        omega
      · exact ih ix' hrec hrec' d hd' v v' hv hv'



theorem batchLists_get (st : ParseState) (k : Nat) (hk : k < st.batchDims.length)
    (hk' : k < (batchLists st).length) :
    (batchLists st).get ⟨k, hk'⟩ =
      (alookup (st.batchDims.get ⟨k, hk⟩) st.dimIndices).getD [] := by
  simp [batchLists]

theorem arrayIndexAt_batch (a : XArr) {slicers : List (String × SliceVal)}
    (hkeys : (slicers.map Prod.fst).Nodup) (c : List Int)
    (hlen : c.length = (parseSlicers a slicers).batchDims.length)
    (k : Nat) (hk : k < (parseSlicers a slicers).batchDims.length) :
    arrayIndexAt (parseSlicers a slicers) c
        ((parseSlicers a slicers).batchDims.get ⟨k, hk⟩)
      = some ((dictIndexOf
          ((alookup ((parseSlicers a slicers).batchDims.get ⟨k, hk⟩)
            (parseSlicers a slicers).dimIndices).getD [])
          (c.get ⟨k, by omega⟩)).getD 0) := by
  have hdb : (parseSlicers a slicers).batchDims.get ⟨k, hk⟩ ∈
      (parseSlicers a slicers).batchDims := List.get_mem _ _ _
  have hfix := (batch_structure a hkeys hdb).1
  rw [arrayIndexAt, if_neg (by rw [hfix]; simp), if_pos hdb]
  rw [alookup_zip_get (batchDims_nodup a hkeys) ⟨k, hk⟩ (by omega)]
  rfl



theorem combo_matches_unique (a : XArr) {slicers : List (String × SliceVal)}
    (hkeys : (slicers.map Prod.fst).Nodup)
    (hidx : ∀ p ∈ (parseSlicers a slicers).dimIndices, p.2.Nodup) :
    ∀ c ∈ itertoolsProduct (batchLists (parseSlicers a slicers)),
    ∀ c' ∈ itertoolsProduct (batchLists (parseSlicers a slicers)),
    ∀ ix, matchesIx (consOf a (parseSlicers a slicers) c) ix = true →
      matchesIx (consOf a (parseSlicers a slicers) c') ix = true → c' = c := by
  intro c hc c' hc' ix hm hm'
  by_contra hne
  have hf2 := mem_itertoolsProduct hc
  have hf2' := mem_itertoolsProduct hc'
  have hlb : (batchLists (parseSlicers a slicers)).length =
      (parseSlicers a slicers).batchDims.length := by
    simp [batchLists]
  have hlc : c.length = (parseSlicers a slicers).batchDims.length := by
    rw [hf2.length_eq, hlb]
  have hlc' : c'.length = (parseSlicers a slicers).batchDims.length := by
    rw [hf2'.length_eq, hlb]
  have hdiff : ∃ k, ∃ (h1 : k < c'.length) (h2 : k < c.length),
      c'.get ⟨k, h1⟩ ≠ c.get ⟨k, h2⟩ := by
    by_contra hall
    push_neg at hall
    exact hne (List.ext_get (by omega) fun k h1 h2 => hall k h1 h2)
  rcases hdiff with ⟨k, h1, h2, hneq⟩
  have hk : k < (parseSlicers a slicers).batchDims.length := by omega
  have hd0 : (parseSlicers a slicers).batchDims.get ⟨k, hk⟩ ∈ a.dims :=
    batchDims_sub_dims a (List.get_mem _ _ _)
  have hA := arrayIndexAt_batch a hkeys c hlc k hk
  have hA' := arrayIndexAt_batch a hkeys c' hlc' k hk
  have hagree := matches_agree (arrayIndexAt (parseSlicers a slicers) c)
    (arrayIndexAt (parseSlicers a slicers) c') a.dims ix hm hm'
    ((parseSlicers a slicers).batchDims.get ⟨k, hk⟩) hd0 _ _ hA hA'
  -- the index list of this batch axis, with its membership facts
  have hmem : c.get ⟨k, by omega⟩ ∈
      (alookup ((parseSlicers a slicers).batchDims.get ⟨k, hk⟩)
        (parseSlicers a slicers).dimIndices).getD [] := by
    have := (List.forall₂_iff_get.mp hf2).2 k (by omega) (by omega)
    rwa [batchLists_get (parseSlicers a slicers) k hk] at this
  have hmem' : c'.get ⟨k, by omega⟩ ∈
      (alookup ((parseSlicers a slicers).batchDims.get ⟨k, hk⟩)
        (parseSlicers a slicers).dimIndices).getD [] := by
    have := (List.forall₂_iff_get.mp hf2').2 k (by omega) (by omega)
    rwa [batchLists_get (parseSlicers a slicers) k hk] at this
  have hnodup : ((alookup ((parseSlicers a slicers).batchDims.get ⟨k, hk⟩)
      (parseSlicers a slicers).dimIndices).getD []).Nodup := by
    cases halo : alookup ((parseSlicers a slicers).batchDims.get ⟨k, hk⟩)
        (parseSlicers a slicers).dimIndices with
    | none => simp
    | some l =>
      have := hidx _ (alookup_mem halo)
      simpa using this
  exact dictIndexOf_inj hnodup hmem' hmem hneq hagree.symm


theorem foldl_assignCombo_skip (a : XArr) (st : ParseState) :
    ∀ (cs : List (List Int)) (g : List Nat → ℚ) (ix : List Nat),
      (∀ c ∈ cs, matchesIx (consOf a st c) ix = false) →
      (cs.foldl (assignCombo a st) g) ix = g ix := by
  intro cs
  induction cs with
  | nil => intro g ix _; rfl
  | cons c0 rest ih =>
    intro g ix hall
    rw [List.foldl_cons]
    rw [ih _ ix fun c hc => hall c (List.mem_cons_of_mem _ hc)]
    show (if matchesIx (consOf a st c0) ix then
      (chunkOf a st c0).data (projIx (consOf a st c0) ix) else g ix) = g ix
    rw [if_neg (by rw [hall c0 (List.mem_cons_self _ _)]; exact Bool.false_ne_true)]

theorem foldl_assignCombo_eq (a : XArr) (st : ParseState) :
    ∀ (cs : List (List Int)) (g : List Nat → ℚ) (c : List Int) (ix : List Nat),
      c ∈ cs → matchesIx (consOf a st c) ix = true →
      (∀ c' ∈ cs, matchesIx (consOf a st c') ix = true → c' = c) →
      (cs.foldl (assignCombo a st) g) ix
        = (chunkOf a st c).data (projIx (consOf a st c) ix) := by
  intro cs
  induction cs with
  | nil =>
    intro g c ix hc
    cases hc
  | cons c0 rest ih =>
    intro g c ix hc hm huniq
    rw [List.foldl_cons]
    by_cases hcr : c ∈ rest
    · exact ih _ c ix hcr hm fun c' hc' hm' => huniq c' (List.mem_cons_of_mem _ hc') hm'
    · have hc0 : c0 = c := by
        rcases List.mem_cons.mp hc with h | h
        · exact h.symm
        · exact absurd h hcr
      subst hc0
      have hrest : ∀ c' ∈ rest, matchesIx (consOf a st c') ix = false := by
        intro c' hc'
        cases hmc : matchesIx (consOf a st c') ix
        · rfl
        · exact absurd (huniq c' (List.mem_cons_of_mem _ hc') hmc ▸ hc') hcr
      rw [foldl_assignCombo_skip a st rest _ ix hrest]
      show (if matchesIx (consOf a st c0) ix then
        (chunkOf a st c0).data (projIx (consOf a st c0) ix) else g ix) = _
      rw [if_pos hm]

/-- C5: during batched extraction with unique slicer keys and
duplicate-free index lists, the final buffer value at every coordinate in
the region assigned to a combination — position-within-own-index-list at
each batched axis's native slot, 0 at each fixed axis, full slice
elsewhere — is exactly that combination's materialized chunk value: no
other combination overwrites it, so arbitrary non-contiguous or
out-of-order explicit index lists fill a compact zero-based buffer. -/
theorem claim_C5_batched_placement (a : XArr) (slicers : List (String × SliceVal))
    (hkeys : (slicers.map Prod.fst).Nodup)
    (hidx : ∀ p ∈ (parseSlicers a slicers).dimIndices, p.2.Nodup) :
    ∀ combo ∈ itertoolsProduct (batchLists (parseSlicers a slicers)),
      ∀ ix, matchesIx (consOf a (parseSlicers a slicers) combo) ix = true →
        (batchedPath a (parseSlicers a slicers)).data ix
          = (chunkOf a (parseSlicers a slicers) combo).data
              (projIx (consOf a (parseSlicers a slicers) combo) ix) := by
  intro combo hc ix hm
  show ((itertoolsProduct (batchLists (parseSlicers a slicers))).foldl
    (assignCombo a (parseSlicers a slicers)) (fun _ => 0)) ix = _
  exact foldl_assignCombo_eq a (parseSlicers a slicers) _ _ combo ix hc hm
    fun c' hc' hm' => combo_matches_unique a hkeys hidx combo hc c' hc' ix hm hm'

/-- Witness for C5: the non-contiguous, out-of-order explicit time index
list [4, 0, 2] on a (T=5, Y=2) source; for its second combination (raw
index 0, index-list position 1) the buffer value at (1, 1) is that
combination's chunk value, which is the source element at (0, 1), i.e. 1. -/
theorem claim_C5_witness :
    (batchedPath srcTY (parseSlicers srcTY [("T", SliceVal.vlist [4, 0, 2])])).data [1, 1]
      = (chunkOf srcTY (parseSlicers srcTY [("T", SliceVal.vlist [4, 0, 2])]) [0]).data
          (projIx (consOf srcTY (parseSlicers srcTY [("T", SliceVal.vlist [4, 0, 2])]) [0])
            [1, 1]) ∧
    (chunkOf srcTY (parseSlicers srcTY [("T", SliceVal.vlist [4, 0, 2])]) [0]).data
        (projIx (consOf srcTY (parseSlicers srcTY [("T", SliceVal.vlist [4, 0, 2])]) [0])
          [1, 1]) = 1 := by
  constructor
  · exact claim_C5_batched_placement srcTY [("T", SliceVal.vlist [4, 0, 2])]
      (by decide) (by decide) [0] (by decide) [1, 1] (by decide)
  · show ((0 : Int) : ℚ) * 10 + ((1 : Int) : ℚ) = 1
    push_cast
    norm_num

end Nd2Utils
